import Mathlib

/-!
Verification of the silvertree-newsletter pipeline core.

This file gives a shallow embedding, in Lean 4, of the workflow engine of the
silvertree_newsletter repository: the string-coercion helpers shared by the
triage and analysis agents, the two-phase deduplication (exact-URL grouping
plus fuzzy title grouping via difflib's SequenceMatcher ratio), the
order-preserving parallel batch execution of the stage agents, the
deterministic curation stage, the workflow graph with its single conditional
route, the checkpoint/resume driver, and the send-email node.

Python text values are embedded as `PyStr := List Char` so that the
character-level operations of the source (strip, lower, regex substitution,
whitespace splitting) can be modelled exactly.  Python `dict`s are embedded
as insertion-ordered association lists, matching CPython's ordered-dict
semantics that the source relies on.  Fallible external collaborators (the
LLM calls) are embedded as explicit function parameters returning
`Option`/`Except` values.
-/

/-- Embedded Python string: a list of characters. -/
abbrev PyStr := List Char

/-- Coercion from Lean string literals to the embedded string type. -/
def strL (s : String) : PyStr := s.toList

/-- Whitespace test used for Python's `str.strip()` / `str.split()` / `\s`
(ASCII whitespace; the source only processes ASCII titles and fields). -/
def isPySpace (c : Char) : Bool :=
  c = ' ' || c = '\t' || c = '\n' || c = '\r' || c = '\x0b' || c = '\x0c'

/-- Python `str.strip()`: drop leading and trailing whitespace. -/
def pStrip (s : PyStr) : PyStr :=
  ((s.dropWhile isPySpace).reverse.dropWhile isPySpace).reverse

/-- Python `str.lower()` (ASCII case folding; non-ASCII letters are later
replaced by the `[^a-z0-9\s]` substitution in both the source and the model). -/
def pyLower (s : PyStr) : PyStr := s.map Char.toLower

/-- Python `str.startswith(p)`. -/
def pyStartsWith (p s : PyStr) : Bool := p.isPrefixOf s

/-- Python `str.split()` (no argument): split on whitespace runs, dropping
empty pieces. -/
def splitWs : PyStr → List PyStr
  | [] => []
  | c :: rest =>
    if isPySpace c then splitWs rest
    else
      match splitWs rest with
      | [] => [[c]]
      | tok :: toks =>
        match rest with
        | [] => [[c]]
        | d :: _ => if isPySpace d then [c] :: tok :: toks else (c :: tok) :: toks

/-- Python `str.split(sep)` for a one-character separator: keeps empty pieces. -/
def splitOnChar (sep : Char) : PyStr → List PyStr
  | [] => [[]]
  | c :: rest =>
    if c = sep then [] :: splitOnChar sep rest
    else
      match splitOnChar sep rest with
      | [] => [[c]]
      | tok :: toks => (c :: tok) :: toks

/-- Python `sep.join(parts)` for a one-character separator. -/
def joinWith (sep : Char) : List PyStr → PyStr
  | [] => []
  | [t] => t
  | t :: ts => t ++ sep :: joinWith sep ts

/-- Python `"a,b" in s` style membership for a single character. -/
def containsChar (c : Char) (s : PyStr) : Bool := s.contains c

/-- Split a string at the first occurrence of a separator character, returning
the part before it and (when present) the part after it.  Models patterns such
as Python's `partition` / `split(sep, 1)`. -/
def splitFirst (sep : Char) : PyStr → PyStr × Option PyStr
  | [] => ([], none)
  | c :: rest =>
    if c = sep then ([], some rest)
    else
      match splitFirst sep rest with
      | (before, after) => (c :: before, after)

example : splitWs (strL "  a bc  d ") = [strL "a", strL "bc", strL "d"] := by decide
example : splitOnChar ',' (strL "a,,b") = [strL "a", strL "", strL "b"] := by decide
example : pStrip (strL "  hi  ") = strL "hi" := by decide
example : splitFirst '=' (strL "k=v=w") = (strL "k", some (strL "v=w")) := by decide
example : splitFirst '=' (strL "k") = (strL "k", none) := by decide

/-!
JSON-shaped values returned by the LLM response parser (`_parse_response` /
`_extract_json` produce a Python value of one of these shapes; floats do not
occur in the fields the coercions read and are omitted).
-/

/-- Embedded Python/JSON value as handed to the per-field coercions. -/
inductive JsonVal where
  | null
  | jbool (b : Bool)
  | jint (n : Int)
  | jstr (s : PyStr)
  | jlist (xs : List JsonVal)
  | jdict (entries : List (PyStr × JsonVal))

/-- Python `str(n)` for an integer. -/
def intToPyStr (n : Int) : PyStr := (toString n).toList

/-- Single-quote character, used by Python `repr` of strings. -/
def quoteChar : Char := Char.ofNat 39

/-- Opening square-bracket free; Python `repr` braces for dicts. -/
def lbraceChar : Char := Char.ofNat 123

/-- Closing brace for Python dict `repr`. -/
def rbraceChar : Char := Char.ofNat 125

mutual

/-- Python `repr(v)` for the embedded values (string escaping inside nested
containers is simplified to plain quoting; the coercions only ever strip the
result, so this does not affect any claim). -/
def pyReprOf : JsonVal → PyStr
  | .null => strL "None"
  | .jbool true => strL "True"
  | .jbool false => strL "False"
  | .jint n => intToPyStr n
  | .jstr s => quoteChar :: s ++ [quoteChar]
  | .jlist xs => '[' :: joinWith ',' (pyReprListAux xs) ++ [']']
  | .jdict es => lbraceChar :: joinWith ',' (pyReprDictAux es) ++ [rbraceChar]

/-- Comma-joined element reprs of a Python list. -/
def pyReprListAux : List JsonVal → List PyStr
  | [] => []
  | v :: vs => pyReprOf v :: pyReprListAux vs

/-- Comma-joined `'key': value` entry reprs of a Python dict. -/
def pyReprDictAux : List (PyStr × JsonVal) → List PyStr
  | [] => []
  | kv :: rest => ((quoteChar :: kv.1 ++ [quoteChar, ':', ' ']) ++ pyReprOf kv.2) :: pyReprDictAux rest

end

/-- Python `str(v)`: differs from `repr` only on strings themselves. -/
def pyStrOf : JsonVal → PyStr
  | .jstr s => s
  | v => pyReprOf v

/-- Value of a run of decimal digits, `none` if empty or a non-digit occurs. -/
def digitsVal : PyStr → Option Nat
  | [] => none
  | [c] => if c.isDigit then some (c.toNat - '0'.toNat) else none
  | c :: rest =>
    if c.isDigit then
      match digitsVal rest with
      | some v => some ((c.toNat - '0'.toNat) * 10 ^ rest.length + v)
      | none => none
    else none

/-- Python `int(v)`: succeeds on bools, ints, and strings that strip to an
optionally-signed digit run; everything else raises (TypeError/ValueError). -/
def pyInt : JsonVal → Except Unit Int
  | .jbool b => .ok (if b then 1 else 0)
  | .jint n => .ok n
  | .jstr s =>
    match pStrip s with
    | '-' :: ds => match digitsVal ds with
      | some v => .ok (-(v : Int))
      | none => .error ()
    | '+' :: ds => match digitsVal ds with
      | some v => .ok (v : Int)
      | none => .error ()
    | ds => match digitsVal ds with
      | some v => .ok (v : Int)
      | none => .error ()
  | _ => .error ()

/-!
Per-field coercions shared (verbatim between the two files) by
`agents/triage_agent.py` and `agents/analysis_agent.py`.
-/

/-- Source `_coerce_confidence(value, default=50)` (triage_agent.py): Python
`int(value)` with the default on TypeError/ValueError, then clamped to
`[0, 100]`. -/
def coerce_confidence (value : JsonVal) : Int :=
  match pyInt value with
  | .error _ => 50
  | .ok score => max 0 (min 100 score)

/-- Source `_coerce_signal_score(value, default=50)` (analysis_agent.py):
identical to `_coerce_confidence`. -/
def coerce_signal_score (value : JsonVal) : Int :=
  match pyInt value with
  | .error _ => 50
  | .ok score => max 0 (min 100 score)

/-- Source `_coerce_bool` (triage_agent.py): bools pass through; recognised
true/false strings decode; `None` gives the default `False`; anything else is
Python truthiness. -/
def coerce_bool (value : JsonVal) : Bool :=
  match value with
  | .jbool b => b
  | .jstr s =>
    let n := pyLower (pStrip s)
    if n = strL "true" || n = strL "yes" || n = strL "1" then true
    else if n = strL "false" || n = strL "no" || n = strL "0" then false
    else !s.isEmpty
  | .null => false
  | .jint n => n != 0
  | .jlist xs => !xs.isEmpty
  | .jdict es => !es.isEmpty

/-- Source `_coerce_text`: `None` stays missing; strings are stripped with
empty normalised to missing; other values are `str()`-ed unstripped. -/
def coerce_text : JsonVal → Option PyStr
  | .null => none
  | .jstr s => let t := pStrip s; if t = [] then none else some t
  | v => some (pyStrOf v)

/-- Source `_coerce_list` (identical in triage_agent.py and
analysis_agent.py): `None` becomes `[]`; a list keeps the non-empty stripped
`str()` of each element; a string is stripped and either dropped, comma-split
(parts stripped, empties dropped), or kept whole; other values become a
one-element list of their `str()`. -/
def coerce_list : JsonVal → List PyStr
  | .null => []
  | .jlist xs => (xs.map (fun it => pStrip (pyStrOf it))).filter (fun t => t ≠ [])
  | .jstr s =>
    let text := pStrip s
    if text = [] then []
    else if containsChar ',' text then
      ((splitOnChar ',' text).map pStrip).filter (fun t => t ≠ [])
    else [text]
  | v => [pyStrOf v]

/-- Source `_coerce_dict` (analysis_agent.py): keep entries whose key strips
non-empty, `str()`-ing the values (keys are already strings in the JSON
shapes the parser produces; duplicate keys do not occur there). -/
def coerce_dict : JsonVal → List (PyStr × PyStr)
  | .jdict es => (es.filter (fun kv => pStrip kv.1 ≠ [])).map (fun kv => (kv.1, pyStrOf kv.2))
  | _ => []

/-- Source `_coerce_threat_level` (analysis_agent.py). -/
def coerce_threat_level : JsonVal → Option PyStr
  | .jstr s =>
    let n := pyLower (pStrip s)
    if n = strL "high" || n = strL "medium" || n = strL "low" then some n else none
  | _ => none

example : coerce_list (.jstr (strL " a, ,b ")) = [strL "a", strL "b"] := by decide
example : coerce_list (.jlist [.jstr (strL " x "), .jstr (strL "  "), .jint 7])
    = [strL "x", strL "7"] := by decide
example : coerce_list .null = [] := by decide
example : coerce_confidence (.jstr (strL " 150 ")) = 100 := by decide
example : coerce_confidence (.jstr (strL "abc")) = 50 := by decide
example : coerce_confidence (.jint (-3)) = 0 := by decide

/-!
Enums and pipeline item records from `workflow/state.py`.
-/

/-- Source `ItemCategory` (workflow/state.py). -/
inductive ItemCategory where
  | portfolio
  | competitor
  | major_deal
  | industry
  | not_relevant
deriving DecidableEq, Inhabited

/-- String value of each `ItemCategory` member. -/
def ItemCategory.value : ItemCategory → PyStr
  | .portfolio => strL "portfolio"
  | .competitor => strL "competitor"
  | .major_deal => strL "major_deal"
  | .industry => strL "industry"
  | .not_relevant => strL "not_relevant"

/-- Python `ItemCategory(s)`: look a string up among the member values. -/
def ItemCategory.ofStr (s : PyStr) : Option ItemCategory :=
  [ItemCategory.portfolio, .competitor, .major_deal, .industry, .not_relevant].find?
    (fun c => c.value == s)

/-- Source `DealType` (workflow/state.py). -/
inductive DealType where
  | ma_acquisition
  | ma_merger
  | divestiture
  | fundraising
  | ipo
  | partnership
  | product_launch
  | personnel_change
  | strategic_update
  | not_a_deal
deriving DecidableEq, Inhabited

/-- String value of each `DealType` member. -/
def DealType.value : DealType → PyStr
  | .ma_acquisition => strL "ma_acquisition"
  | .ma_merger => strL "ma_merger"
  | .divestiture => strL "divestiture"
  | .fundraising => strL "fundraising"
  | .ipo => strL "ipo"
  | .partnership => strL "partnership"
  | .product_launch => strL "product_launch"
  | .personnel_change => strL "personnel_change"
  | .strategic_update => strL "strategic_update"
  | .not_a_deal => strL "not_a_deal"

/-- Python `DealType(s)`. -/
def DealType.ofStr (s : PyStr) : Option DealType :=
  [DealType.ma_acquisition, .ma_merger, .divestiture, .fundraising, .ipo, .partnership,
    .product_launch, .personnel_change, .strategic_update, .not_a_deal].find?
    (fun c => c.value == s)

/-- Source `RelevanceLevel` (workflow/state.py). -/
inductive RelevanceLevel where
  | high
  | medium
  | low
deriving DecidableEq, Inhabited

/-- String value of each `RelevanceLevel` member. -/
def RelevanceLevel.value : RelevanceLevel → PyStr
  | .high => strL "high"
  | .medium => strL "medium"
  | .low => strL "low"

/-- Python `RelevanceLevel(s)`. -/
def RelevanceLevel.ofStr (s : PyStr) : Option RelevanceLevel :=
  [RelevanceLevel.high, .medium, .low].find? (fun c => c.value == s)

/-- Source `CarveOutPotential` (workflow/state.py); `not_applicable` carries
the value string `n/a`. -/
inductive CarveOutPotential where
  | high
  | medium
  | low
  | none_
  | not_applicable
deriving DecidableEq, Inhabited

/-- String value of each `CarveOutPotential` member. -/
def CarveOutPotential.value : CarveOutPotential → PyStr
  | .high => strL "high"
  | .medium => strL "medium"
  | .low => strL "low"
  | .none_ => strL "none"
  | .not_applicable => strL "n/a"

/-- Python `CarveOutPotential(s)`. -/
def CarveOutPotential.ofStr (s : PyStr) : Option CarveOutPotential :=
  [CarveOutPotential.high, .medium, .low, .none_, .not_applicable].find?
    (fun c => c.value == s)

/-- Source `_coerce_enum(enum_cls, value, default)` (triage_agent.py),
instantiated by the per-enum membership function: strings are stripped and
lower-cased with empty falling back to the default; a failed enum lookup
(including every non-string value, since all member values are strings) also
falls back to the default. -/
def coerce_enum {e : Type} (ofStr : PyStr → Option e) (default : e) (value : JsonVal) : e :=
  match value with
  | .jstr s =>
    let normalized := pyLower (pStrip s)
    if normalized = [] then default else (ofStr normalized).getD default
  | .null => default
  | _ => default

/-- Source `_coerce_carve_out` (analysis_agent.py): like `_coerce_enum` for
`CarveOutPotential` but first canonicalising the `n/a` spellings. -/
def coerce_carve_out (value : JsonVal) : CarveOutPotential :=
  match value with
  | .null => .not_applicable
  | .jstr s =>
    let normalized := pyLower (pStrip s)
    if normalized = [] then .not_applicable
    else
      let canon := if normalized = strL "not_applicable" || normalized = strL "not applicable"
          || normalized = strL "na" || normalized = strL "n/a"
        then strL "n/a" else normalized
      (CarveOutPotential.ofStr canon).getD .not_applicable
  | _ => .not_applicable

/-- Source `RawNewsItem` (workflow/state.py); `published_date` is embedded as
an integer timestamp. -/
structure RawNewsItem where
  id : PyStr
  title : PyStr
  summary : PyStr
  source : PyStr
  source_url : PyStr
  published_date : Option Int
  full_text : Option PyStr
  full_text_source : Option PyStr
deriving DecidableEq, Inhabited

/-- Source `TriagedItem` (workflow/state.py). -/
structure TriagedItem where
  raw_item : RawNewsItem
  is_relevant : Bool
  category : ItemCategory
  deal_type : DealType
  relevance_level : RelevanceLevel
  confidence : Int
  related_portfolio_company : Option PyStr
  related_competitors : List PyStr
  related_sector : Option PyStr
  triage_reason : PyStr
deriving DecidableEq, Inhabited

/-- Source `AnalyzedItem` (workflow/state.py). -/
structure AnalyzedItem where
  triaged_item : TriagedItem
  why_it_matters : PyStr
  strategic_implications : PyStr
  impact_on_silvertree : PyStr
  competitive_threat_level : Option PyStr
  affected_portfolio_companies : List PyStr
  carve_out_potential : CarveOutPotential
  carve_out_rationale : Option PyStr
  carve_out_target_units : List PyStr
  key_entities : List (PyStr × PyStr)
  signal_score : Int
  evidence : List PyStr
deriving DecidableEq, Inhabited

/-- Source `CarveOutOpportunity` (workflow/state.py). -/
structure CarveOutOpportunity where
  source_item : AnalyzedItem
  source_items : List AnalyzedItem
  target_company : PyStr
  potential_units : List PyStr
  strategic_fit_rationale : PyStr
  recommended_action : PyStr
  priority : PyStr
deriving DecidableEq, Inhabited

/-!
Triage and analysis agents (`agents/triage_agent.py`,
`agents/analysis_agent.py`).  The parsed LLM response is a Python dict,
embedded as an association list; the composite of the rate-limited
`generate_content` call and `_parse_response` is an external collaborator and
is embedded as an explicit fallible function parameter (`_parse_response`
itself never raises: it returns the empty dict on unparseable text, so every
exception the `try` block catches originates in the call or in reading the
response).
-/

/-- Parsed LLM response dict. -/
abbrev ParsedDict := List (PyStr × JsonVal)

/-- Python `result.get(key, default)` on the parsed response dict. -/
def dGet (d : ParsedDict) (key : PyStr) (dflt : JsonVal) : JsonVal :=
  match d.find? (fun kv => kv.1 == key) with
  | some kv => kv.2
  | none => dflt

/-- Source `TriageAgent._build_triaged_item` (triage_agent.py lines 234-247). -/
def build_triaged_item (item : RawNewsItem) (result : ParsedDict) : TriagedItem where
  raw_item := item
  is_relevant := coerce_bool (dGet result (strL "is_relevant") (.jbool false))
  category := coerce_enum ItemCategory.ofStr .not_relevant (dGet result (strL "category") .null)
  deal_type := coerce_enum DealType.ofStr .not_a_deal (dGet result (strL "deal_type") .null)
  relevance_level := coerce_enum RelevanceLevel.ofStr .low (dGet result (strL "relevance_level") .null)
  confidence := coerce_confidence (dGet result (strL "confidence") (.jint 50))
  related_portfolio_company := coerce_text (dGet result (strL "related_portfolio_company") .null)
  related_competitors := coerce_list (dGet result (strL "related_competitors") .null)
  related_sector := coerce_text (dGet result (strL "related_sector") .null)
  triage_reason := (coerce_text (dGet result (strL "triage_reason") .null)).getD []

/-- Source `TriageAgent._build_default_triaged_item` (triage_agent.py lines
249-262): the deterministic fallback produced when triage of an item fails. -/
def build_default_triaged_item (item : RawNewsItem) : TriagedItem where
  raw_item := item
  is_relevant := false
  category := .not_relevant
  deal_type := .not_a_deal
  relevance_level := .low
  confidence := 0
  related_portfolio_company := none
  related_competitors := []
  related_sector := none
  triage_reason := strL "Triage failed - marked as not relevant"

/-- Source `TriageAgent.triage_item` (triage_agent.py lines 133-145): the
`try` block wraps the rate-limiter wait, the LLM call and response parsing
(embedded together as `call`) and the item build; any exception yields the
default triaged item. -/
def triage_item (call : RawNewsItem → Except PyStr ParsedDict) (item : RawNewsItem) : TriagedItem :=
  match call item with
  | .ok result => build_triaged_item item result
  | .error _ => build_default_triaged_item item

/-- Source `AnalysisAgent._build_analyzed_item` (analysis_agent.py lines
287-302). -/
def build_analyzed_item (item : TriagedItem) (result : ParsedDict) : AnalyzedItem where
  triaged_item := item
  why_it_matters := (coerce_text (dGet result (strL "why_it_matters") .null)).getD (strL "Analysis unavailable.")
  strategic_implications := (coerce_text (dGet result (strL "strategic_implications") .null)).getD []
  impact_on_silvertree := (coerce_text (dGet result (strL "impact_on_silvertree") .null)).getD []
  competitive_threat_level := coerce_threat_level (dGet result (strL "competitive_threat_level") .null)
  affected_portfolio_companies := coerce_list (dGet result (strL "affected_portfolio_companies") .null)
  carve_out_potential := coerce_carve_out (dGet result (strL "carve_out_potential") .null)
  carve_out_rationale := coerce_text (dGet result (strL "carve_out_rationale") .null)
  carve_out_target_units := coerce_list (dGet result (strL "carve_out_target_units") .null)
  key_entities := coerce_dict (dGet result (strL "key_entities") .null)
  signal_score := coerce_signal_score (dGet result (strL "signal_score") (.jint 50))
  evidence := coerce_list (dGet result (strL "evidence") .null)

/-- Source `AnalysisAgent._build_default_analyzed_item` (analysis_agent.py
lines 304-319): the deterministic fallback produced when analysis fails. -/
def build_default_analyzed_item (item : TriagedItem) : AnalyzedItem where
  triaged_item := item
  why_it_matters := strL "Analysis failed - manual review recommended."
  strategic_implications := []
  impact_on_silvertree := []
  competitive_threat_level := none
  affected_portfolio_companies := []
  carve_out_potential := .not_applicable
  carve_out_rationale := none
  carve_out_target_units := []
  key_entities := []
  signal_score := 0
  evidence := []

/-- Source `AnalysisAgent.analyze_item` (analysis_agent.py lines 161-173). -/
def analyze_item (call : TriagedItem → Except PyStr ParsedDict) (item : TriagedItem) : AnalyzedItem :=
  match call item with
  | .ok result => build_analyzed_item item result
  | .error _ => build_default_analyzed_item item

/-!
Batch execution.  Both agents contain the identical `processBatch` pattern:
`workers <= 1` maps sequentially over the items; `workers > 1` submits one
future per index to a thread pool, then iterates `as_completed(future_map)` —
an arbitrary completion order — writing each result into `results[idx]`, an
index-addressed slot array initialised to `None`, and finally drops `None`
slots.  The completion order is embedded as an explicit list of indices.
-/

/-- Replay of the `for future in as_completed(future_map)` loop: successive
completions write `results[idx] = future.result()`, where the future at
`idx` holds the processing of `items[idx]`. -/
def assignSlots (f : α → β) (items : List α) : List Nat → List (Option β) → List (Option β)
  | [], slots => slots
  | idx :: rest, slots => assignSlots f items rest (slots.set idx ((items[idx]?).map f))

/-- Parallel branch of `processBatch`: slots filled in completion order, then
`[item for item in results if item is not None]`. -/
def batchParallel (f : α → β) (items : List α) (order : List Nat) : List β :=
  (assignSlots f items order (List.replicate items.length none)).filterMap id

/-- Source `TriageAgent.triage_batch` (triage_agent.py lines 147-187), with
the per-item work (`triage_item` plus the optional `context_builder`) as `f`
and the worker-pool completion order as `order`. -/
def triage_batch (workers : Nat) (f : α → β) (items : List α) (order : List Nat) : List β :=
  if items.length = 0 then []
  else if workers ≤ 1 then items.map f
  else batchParallel f items order

/-- Source `AnalysisAgent.analyze_batch` carve-out pass: each analyzed item
with high or medium potential contributes `_extract_carve_out(analyzed)` when
that returns one. -/
def carveOutsOf (extractCO : AnalyzedItem → Option CarveOutOpportunity)
    (analyzed : List AnalyzedItem) : List CarveOutOpportunity :=
  analyzed.filterMap (fun a =>
    if a.carve_out_potential = .high ∨ a.carve_out_potential = .medium then extractCO a else none)

/-- Source `AnalysisAgent.analyze_batch` (analysis_agent.py lines 175-230):
both execution modes produce the analyzed list (sequentially or via the slot
array) and derive carve-outs from it in result order;
`AnalysisAgent._extract_carve_out` (regex target guessing over the title) is
passed in as `extractCO`. -/
def analyze_batch (workers : Nat) (f : TriagedItem → AnalyzedItem)
    (extractCO : AnalyzedItem → Option CarveOutOpportunity)
    (items : List TriagedItem) (order : List Nat) :
    List AnalyzedItem × List CarveOutOpportunity :=
  if items.length = 0 then ([], [])
  else if workers ≤ 1 then
    (items.map f, carveOutsOf extractCO (items.map f))
  else
    (batchParallel f items order, carveOutsOf extractCO (batchParallel f items order))

/-!
Deduplication (`agents/dedupe_agent.py`).  `_title_similarity` delegates to
`difflib.SequenceMatcher(None, norm_a, norm_b).ratio()`.  The matcher is
embedded exactly for the no-junk case that applies here (junk parameter is
`None` and the autojunk popularity heuristic only fires for sequences of 200+
elements, far beyond normalized titles): the dynamic program of
`find_longest_match` over `b2j`, and the recursive matching-block
decomposition summed by `ratio`.
-/

/-- Index list `b2j[c]`: positions of `c` in `b`, ascending. -/
def b2jOf (b : List Char) (c : Char) : List Nat :=
  (List.range b.length).filter (fun j => b.get? j == some c)

/-- Running best block of `find_longest_match`. -/
structure SMBest where
  besti : Nat
  bestj : Nat
  bestsize : Nat
deriving DecidableEq

/-- Inner loop of `find_longest_match` over the positions of `a[i]` in `b`:
`j < blo` is skipped, `j >= bhi` breaks, otherwise the run length
`k = j2len.get(j-1, 0) + 1` is recorded in the new row and the best block is
updated when `k` exceeds it. -/
def smInner (blo bhi i : Nat) :
    List Nat → (Nat → Nat) → (Nat → Nat) → SMBest → ((Nat → Nat) × SMBest)
  | [], _, newRow, st => (newRow, st)
  | j :: rest, oldRow, newRow, st =>
    if j < blo then smInner blo bhi i rest oldRow newRow st
    else if bhi ≤ j then (newRow, st)
    else
      let k := (if j = 0 then 0 else oldRow (j - 1)) + 1
      let newRow' := fun x => if x = j then k else newRow x
      let st' := if st.bestsize < k then ⟨i + 1 - k, j + 1 - k, k⟩ else st
      smInner blo bhi i rest oldRow newRow' st'

/-- One outer-loop iteration of `find_longest_match` (row `i` of the DP). -/
def smOuterStep (b2jf : Char → List Nat) (a : List Char) (blo bhi : Nat)
    (acc : (Nat → Nat) × SMBest) (i : Nat) : (Nat → Nat) × SMBest :=
  smInner blo bhi i (b2jf (a.getD i ' ')) acc.1 (fun _ => 0) acc.2

/-- Source `SequenceMatcher.find_longest_match` restricted to the no-junk
case, where the post-DP junk extension loops are no-ops. -/
def find_longest_match (a b : List Char) (alo ahi blo bhi : Nat) : SMBest :=
  ((List.range' alo (ahi - alo)).foldl (smOuterStep (b2jOf b) a blo bhi)
    (fun _ => 0, ⟨alo, blo, 0⟩)).2

/-- Total size of all matching blocks (`get_matching_blocks`): recursively
split around the longest match.  The fuel argument bounds the recursion depth;
`a.length + b.length + 1` always suffices since each split removes at least
one element from the combined ranges. -/
def matchedTotal (a b : List Char) : Nat → Nat → Nat → Nat → Nat → Nat
  | 0, _, _, _, _ => 0
  | fuel + 1, alo, ahi, blo, bhi =>
    let st := find_longest_match a b alo ahi blo bhi
    if st.bestsize = 0 then 0
    else
      matchedTotal a b fuel alo st.besti blo st.bestj + st.bestsize
        + matchedTotal a b fuel (st.besti + st.bestsize) ahi (st.bestj + st.bestsize) bhi

/-- Exact fraction standing for the float similarity scores of the source
(`2.0 * M / T` and the `0.9` threshold are all exactly representable, so
float comparison agrees with exact fraction comparison here).  Kept
unreduced; every construction in this file has a positive denominator, and
the order below is the usual cross-multiplication order for positive
denominators. -/
structure Frac where
  num : Int
  den : Int
deriving DecidableEq

instance : LE Frac := ⟨fun x y => x.num * y.den ≤ y.num * x.den⟩

instance : LT Frac := ⟨fun x y => x.num * y.den < y.num * x.den⟩

instance (x y : Frac) : Decidable (x ≤ y) := Int.decLe _ _

instance (x y : Frac) : Decidable (x < y) := Int.decLt _ _

/-- The deduplication similarity threshold, default `0.9`
(`dedupe_similarity_threshold` in config.py). -/
def simThreshold : Frac := ⟨9, 10⟩

/-- Source `SequenceMatcher.ratio()`: `2.0 * M / T`, or `1.0` when both
sequences are empty. -/
def ratioScore (a b : List Char) : Frac :=
  if a.length + b.length = 0 then ⟨1, 1⟩
  else ⟨2 * (matchedTotal a b (a.length + b.length + 1) 0 a.length 0 b.length : Int),
    (a.length : Int) + (b.length : Int)⟩

/-- Source `_STOPWORDS` (dedupe_agent.py lines 35-38). -/
def STOPWORDS : List PyStr :=
  [strL "the", strL "a", strL "an", strL "and", strL "or", strL "for", strL "to",
    strL "in", strL "on", strL "of", strL "by", strL "with", strL "from", strL "at",
    strL "as", strL "is", strL "are", strL "be", strL "will"]

/-- Character substitution of `re.sub(r"[^a-z0-9\s]", " ", ...)`: anything
that is not a lowercase letter, digit or whitespace becomes a space. -/
def normSub (c : Char) : Char :=
  if ('a' ≤ c && c ≤ 'z') || ('0' ≤ c && c ≤ '9') || isPySpace c then c else ' '

/-- Source `_normalize_title` (dedupe_agent.py lines 165-168): lowercase,
substitute punctuation to spaces, drop stop words, and re-join the remaining
tokens with single spaces. -/
def normalize_title (title : PyStr) : PyStr :=
  let text := (pyLower title).map normSub
  joinWith ' ' ((splitWs text).filter (fun tok => !STOPWORDS.contains tok))

/-- Source `_title_similarity` (dedupe_agent.py lines 155-162):
`SequenceMatcher.ratio()` of the two normalized titles, `0.0` when either
normalizes to empty. -/
def title_similarity (a b : PyStr) : Frac :=
  let norm_a := normalize_title a
  let norm_b := normalize_title b
  if norm_a = [] ∨ norm_b = [] then ⟨0, 1⟩ else ratioScore norm_a norm_b

/-- Modelled from the spec: the similarity computation the spec describes,
"pairwise title similarity using a normalized-token set-overlap ratio" —
the set-overlap (Jaccard) ratio of the two normalized token sets.  (Any of
the usual set-overlap ratios equals 1 on identical non-empty token sets,
which is all the comparison against the source computation uses.) -/
def title_similarity_specTokens (a b : PyStr) : Frac :=
  let ta := (splitWs (normalize_title a)).dedup
  let tb := (splitWs (normalize_title b)).dedup
  let inter := ta.filter (fun t => tb.contains t)
  let uni := (ta ++ tb).dedup
  if uni.length = 0 then ⟨0, 1⟩ else ⟨(inter.length : Int), (uni.length : Int)⟩

/-- Source `_canonical_url` (dedupe_agent.py lines 171-184): drop query
parameters whose lowercase key starts with `utm_` or equals `ref`/`source`,
keeping blank values, and rebuild the URL (no `?` when no parameter
survives).  `urlparse`/`urlunparse` round-trip the non-query parts; URLs here
carry no fragment and need no percent re-encoding. -/
def canonical_url (url : PyStr) : PyStr :=
  match splitFirst '?' url with
  | (base, none) => base
  | (base, some query) =>
    let chunks := (splitOnChar '&' query).filter (fun c => !c.isEmpty)
    let pairs := chunks.map (splitFirst '=')
    let keep := pairs.filter (fun kv =>
      let k := pyLower kv.1
      !pyStartsWith (strL "utm_") k && k != strL "ref" && k != strL "source")
    let enc := keep.map (fun kv => kv.1 ++ '=' :: kv.2.getD [])
    if enc = [] then base else base ++ '?' :: joinWith '&' enc

example : canonical_url (strL "https://a.com/x?utm_source=foo") = strL "https://a.com/x" := by decide
example : canonical_url (strL "https://a.com/x?ref=bar") = strL "https://a.com/x" := by decide
example : canonical_url (strL "https://a.com/x?p=1&utm_a=2") = strL "https://a.com/x?p=1" := by decide

example : ratioScore (strL "alpha beta") (strL "beta alpha") = ⟨10, 20⟩ := by decide
example : title_similarity (strL "Alpha Beta!") (strL "beta alpha") < simThreshold := by decide
example : simThreshold ≤ title_similarity_specTokens (strL "Alpha Beta!") (strL "beta alpha") := by decide
example : simThreshold ≤ title_similarity (strL "The Alpha Beta") (strL "alpha beta") := by decide
example : title_similarity (strL "zzz") (strL "qqq") = ⟨0, 6⟩ := by decide

/-!
Duplicate grouping and canonical selection (`agents/dedupe_agent.py`).
`by_url` is a CPython dict keyed by canonical URL: insertion-ordered buckets,
embedded as an association list.  The LLM canonical pick
(`_select_canonical`, `None` whenever the client is absent or the call or
its JSON fail) is embedded as the function parameter `sel`.
-/

/-- Append an item to its URL bucket, creating the bucket at the end on first
occurrence (CPython dict `setdefault` semantics). -/
def addToGroups (key : PyStr) (it : RawNewsItem) :
    List (PyStr × List RawNewsItem) → List (PyStr × List RawNewsItem)
  | [] => [(key, [it])]
  | (k, g) :: rest =>
    if k = key then (k, g ++ [it]) :: rest else (k, g) :: addToGroups key it rest

/-- The `by_url` dict of `_group_duplicates` (dedupe_agent.py lines 81-84). -/
def groupByUrl (items : List RawNewsItem) : List (PyStr × List RawNewsItem) :=
  items.foldl (fun acc it => addToGroups (canonical_url it.source_url) it acc) []

/-- Split the URL buckets (in dict-value order) into multi-item groups and
the remaining loose items (dedupe_agent.py lines 86-93). -/
def splitUrlGroups :
    List (PyStr × List RawNewsItem) → List (List RawNewsItem) × List RawNewsItem
  | [] => ([], [])
  | (_, g) :: rest =>
    let (gs, rem) := splitUrlGroups rest
    if 1 < g.length then (g :: gs, rem) else (gs, g.headI :: rem)

/-- Inner loop of the fuzzy pass (dedupe_agent.py lines 102-107): scan the
items after `item`, skipping already-used ids, pulling in every item whose
title similarity to `item` reaches the threshold and marking it used. -/
def collectSimilar (thr : Frac) (item : RawNewsItem) :
    List RawNewsItem → List PyStr → List RawNewsItem × List PyStr
  | [], used => ([], used)
  | other :: rest, used =>
    if other.id ∈ used then collectSimilar thr item rest used
    else if thr ≤ title_similarity item.title other.title then
      match collectSimilar thr item rest (other.id :: used) with
      | (g, u) => (other :: g, u)
    else collectSimilar thr item rest used

/-- Outer loop of the fuzzy pass (dedupe_agent.py lines 95-109): each not-yet
used item seeds a group and absorbs the later similar items. -/
def fuzzyGroups (thr : Frac) : List RawNewsItem → List PyStr → List (List RawNewsItem)
  | [], _ => []
  | item :: rest, used =>
    if item.id ∈ used then fuzzyGroups thr rest used
    else
      match collectSimilar thr item rest (item.id :: used) with
      | (grp, used') => (item :: grp) :: fuzzyGroups thr rest used'

/-- Source `DedupeAgent._group_duplicates` (dedupe_agent.py lines 79-111):
URL groups first, then fuzzy-title groups over the loose items. -/
def group_duplicates (thr : Frac) (items : List RawNewsItem) : List (List RawNewsItem) :=
  match splitUrlGroups (groupByUrl items) with
  | (gs, remaining) => gs ++ fuzzyGroups thr remaining []

/-- Sort key of `_fallback_select` (dedupe_agent.py lines 146-150):
`(source_score, date_score, summary_score, published_date)`. -/
def fbKey (it : RawNewsItem) : Nat × Nat × Nat × Option Int :=
  (if pyStartsWith (strL "perplexity") it.source then 0 else 1,
    if it.published_date.isSome then 1 else 0,
    it.summary.length,
    it.published_date)

/-- Comparison of the optional-date component.  The mixed cases are
unreachable through `_fallback_select` (the preceding date-score component
differs there before the date is compared; Python would raise on them). -/
def optIntCmp : Option Int → Option Int → Ordering
  | none, none => .eq
  | some a, some b => compare a b
  | none, some _ => .lt
  | some _, none => .gt

/-- Python tuple comparison of two fallback keys. -/
def fbKeyCmp (x y : Nat × Nat × Nat × Option Int) : Ordering :=
  (compare x.1 y.1).then ((compare x.2.1 y.2.1).then
    ((compare x.2.2.1 y.2.2.1).then (optIntCmp x.2.2.2 y.2.2.2)))

/-- Source `DedupeAgent._fallback_select` (dedupe_agent.py lines 145-152):
Python `max(group, key=score)` — the first item attaining the maximal key. -/
def fallback_select (group : List RawNewsItem) : RawNewsItem :=
  match group with
  | [] => default
  | g :: gs => gs.foldl (fun best it => if fbKeyCmp (fbKey it) (fbKey best) = .gt then it else best) g

/-- Canonical pick for one group (dedupe_agent.py lines 69-74): the id the
LLM returned when it names a member of the group, otherwise the deterministic
fallback.  A `none` from `sel` (client absent, call failed, no `keep_id`)
matches no member and also falls back. -/
def chooseItem (sel : List RawNewsItem → Option PyStr) (group : List RawNewsItem) : RawNewsItem :=
  match sel group with
  | none => fallback_select group
  | some kid =>
    match group.find? (fun it => it.id == kid) with
    | some it => it
    | none => fallback_select group

/-- Stats dict returned by `dedupe_items`. -/
structure DedupeStats where
  original : Nat
  deduped : Nat
  removed : Nat
deriving DecidableEq

/-- Loop body of `dedupe_items` (dedupe_agent.py lines 64-75): singleton
groups pass through, larger groups contribute their canonical pick and
`max(0, len(group) - 1)` removals. -/
def dedupeGroups (sel : List RawNewsItem → Option PyStr) :
    List (List RawNewsItem) → List RawNewsItem × Nat
  | [] => ([], 0)
  | g :: gs =>
    let (ks, r) := dedupeGroups sel gs
    if g.length = 1 then (g.headI :: ks, r)
    else (chooseItem sel g :: ks, (g.length - 1) + r)

/-- Source `DedupeAgent.dedupe_items` (dedupe_agent.py lines 55-77). -/
def dedupe_items (sel : List RawNewsItem → Option PyStr) (thr : Frac)
    (items : List RawNewsItem) : List RawNewsItem × DedupeStats :=
  if items.isEmpty then ([], ⟨0, 0, 0⟩)
  else
    let groups := group_duplicates thr items
    match dedupeGroups sel groups with
    | (kept, removed) => (kept, ⟨items.length, kept.length, removed⟩)

/-!
Curation (`workflow/nodes.py`, `curate_node`, lines 586-711).  The stage is
deterministic and non-LLM.  The two grouping lambdas close over the company
lookups loaded from the configuration JSON, so they enter the embedding as
the function parameters `groupPortfolio` / `groupCluster`
(`resolve_portfolio_company(item, company_lookup)` and
`resolve_cluster(item, company_lookup, cluster_lookup)`); the caps and the
default score threshold are the `settings` fields, taken as an explicit
configuration record with the config.py defaults.
-/

/-- The settings fields read by `curate_node`. -/
structure CurateSettings where
  min_signal_score : Int
  max_portfolio_items : Nat
  max_competitor_items : Nat
  max_deal_items : Nat
  max_industry_items : Nat
  max_items_per_portfolio_company : Nat
  max_items_per_cluster : Nat
deriving DecidableEq

/-- Defaults from config.py (lines 74-80). -/
def defaultCurateSettings : CurateSettings where
  min_signal_score := 55
  max_portfolio_items := 8
  max_competitor_items := 10
  max_deal_items := 12
  max_industry_items := 10
  max_items_per_portfolio_company := 3
  max_items_per_cluster := 5

/-- Source `_threshold_for`: `thresholds.get(category, settings.min_signal_score)`. -/
def threshold_for (cfg : CurateSettings) (thresholds : List (PyStr × Int))
    (it : AnalyzedItem) : Int :=
  match thresholds.find? (fun kv => kv.1 == it.triaged_item.category.value) with
  | some kv => kv.2
  | none => cfg.min_signal_score

/-- Stable insert for a descending sort: a later element is placed after
every earlier element of greater-or-equal score. -/
def insertDescBy (score : α → Int) (x : α) : List α → List α
  | [] => [x]
  | y :: ys => if score x < score y then y :: insertDescBy score x ys else x :: y :: ys

/-- Python `sorted(items, key=score, reverse=True)`: stable descending sort. -/
def sortDescBy (score : α → Int) : List α → List α
  | [] => []
  | x :: xs => insertDescBy score x (sortDescBy score xs)

/-- One step of the `grouped` dict build inside `_cap_by_group`: `setdefault`
creates the bucket at first occurrence; the item is appended only while the
bucket is below `per_group`. -/
def capAddToBuckets (per_group : Nat) (key : PyStr) (it : AnalyzedItem) :
    List (PyStr × List AnalyzedItem) → List (PyStr × List AnalyzedItem)
  | [] => [(key, if 0 < per_group then [it] else [])]
  | (k, g) :: rest =>
    if k = key then (k, if g.length < per_group then g ++ [it] else g) :: rest
    else (k, g) :: capAddToBuckets per_group key it rest

/-- Grouping key: `group_fn(item) or "Other"` (both `None` and the empty
string fall through to `"Other"`). -/
def groupKeyOf (group_fn : AnalyzedItem → Option PyStr) (it : AnalyzedItem) : PyStr :=
  let k := (group_fn it).getD []
  if k = [] then strL "Other" else k

/-- Python `max(score of members)`, `0` for an empty bucket. -/
def bucketScore (g : List AnalyzedItem) : Int :=
  match g with
  | [] => 0
  | x :: xs => xs.foldl (fun m it => max m it.signal_score) x.signal_score

/-- Source `_cap_by_group` (nodes.py lines 621-646): sort by score
descending, fill insertion-ordered buckets capped at `per_group`, order
buckets by their top score descending, flatten, and apply `total_limit`
(`if total_limit:` — a zero limit means no truncation). -/
def cap_by_group (group_fn : AnalyzedItem → Option PyStr) (per_group total_limit : Nat)
    (items_in : List AnalyzedItem) : List AnalyzedItem :=
  let sorted_items := sortDescBy (fun i => i.signal_score) items_in
  let grouped := sorted_items.foldl
    (fun acc it => capAddToBuckets per_group (groupKeyOf group_fn it) it acc) []
  let group_order := sortDescBy (fun kv : PyStr × List AnalyzedItem => bucketScore kv.2) grouped
  let flattened := (group_order.map (fun kv => kv.2)).flatten
  if total_limit = 0 then flattened else flattened.take total_limit

/-- The `carve_out_ids` set (nodes.py lines 601-605); `source_item` and
`triaged_item` are required fields of the models, so the truthiness guards
always hold. -/
def carveOutIds (carve_outs : List CarveOutOpportunity) : List PyStr :=
  carve_outs.map (fun co => co.source_item.triaged_item.raw_item.id)

/-- The score/carve-out filter (nodes.py lines 611-616). -/
def curateFiltered (cfg : CurateSettings) (thresholds : List (PyStr × Int))
    (items : List AnalyzedItem) : List AnalyzedItem :=
  items.filter (fun it =>
    threshold_for cfg thresholds it ≤ it.signal_score
      ∨ it.carve_out_potential = .high ∨ it.carve_out_potential = .medium)

/-- The carve-out re-add loop (nodes.py lines 682-686): walk `filtered`,
appending any item whose id is a carve-out source id and is not yet among the
selected ids. -/
def readdCarveOuts (carve_out_ids : List PyStr) :
    List AnalyzedItem → List AnalyzedItem → List PyStr → List AnalyzedItem
  | [], selected, _ => selected
  | it :: rest, selected, ids =>
    let iid := it.triaged_item.raw_item.id
    if carve_out_ids.contains iid && !ids.contains iid then
      readdCarveOuts carve_out_ids rest (selected ++ [it]) (iid :: ids)
    else readdCarveOuts carve_out_ids rest selected ids

/-- Source `curate_node` (nodes.py lines 586-711), the curated selection and
carve-out list (the returned metrics dict is the pair of lengths and is
omitted).  `by_category` holds exactly the four relevant categories; an
analyzed item in category `not_relevant` would raise KeyError in the source,
so the theorems below assume it absent. -/
def curate_node (cfg : CurateSettings) (thresholds : List (PyStr × Int))
    (groupPortfolio groupCluster : AnalyzedItem → Option PyStr)
    (items : List AnalyzedItem) (carve_outs : List CarveOutOpportunity) :
    List AnalyzedItem × List CarveOutOpportunity :=
  if items.isEmpty then ([], [])
  else
    let carve_out_ids := carveOutIds carve_outs
    let filtered := curateFiltered cfg thresholds items
    let portfolio_selected := cap_by_group groupPortfolio
      cfg.max_items_per_portfolio_company cfg.max_portfolio_items
      (filtered.filter (fun it => it.triaged_item.category = .portfolio))
    let competitor_industry :=
      filtered.filter (fun it => it.triaged_item.category = .competitor)
        ++ filtered.filter (fun it => it.triaged_item.category = .industry)
    let competitive_selected := cap_by_group groupCluster cfg.max_items_per_cluster
      (cfg.max_competitor_items + cfg.max_industry_items) competitor_industry
    let deals_selected := cap_by_group groupCluster cfg.max_items_per_cluster
      cfg.max_deal_items (filtered.filter (fun it => it.triaged_item.category = .major_deal))
    let selected := portfolio_selected ++ competitive_selected ++ deals_selected
    let selectedFinal := readdCarveOuts carve_out_ids filtered selected
      (selected.map (fun it => it.triaged_item.raw_item.id))
    let finalIds := selectedFinal.map (fun it => it.triaged_item.raw_item.id)
    (selectedFinal,
      carve_outs.filter (fun co => finalIds.contains co.source_item.triaged_item.raw_item.id))

/-!
Workflow graph and checkpointed execution (`workflow/graph.py`,
`workflow/state.py`).  The node bodies run external collaborators and are
embedded as an abstract deterministic transformer `f : WNode → StateL →
StateL` ("deterministic/mocked external collaborators").  The LangGraph
engine and its `AsyncSqliteSaver` are external to the repository; they are
modelled from the spec contract: after every node the accumulated state is
persisted keyed by thread id (`runStepsFuel` produces exactly such a
checkpoint), the conditional edge is evaluated on the state just written by
`dedupe`, and the two parallel collectors are scheduled as one
rss-then-search superstep between `initialize` and `triage` (their relative
order is internal to the fan-in and both runs below use the same schedule).
The `resume` branching over the checkpoint lookup is embedded directly from
`run_newsletter_workflow` (graph.py lines 142-203).
-/

/-- Metric values stored in the state's `metrics` dict. -/
inductive MVal where
  | nil
  | s (v : String)
  | n (v : Int)
deriving DecidableEq

/-- Placeholder for the composed newsletter aggregate: only `subject` is read
by the embedded nodes; the sections are produced and consumed inside the
out-of-scope composer/renderer. -/
structure NewsletterL where
  subject : String
deriving DecidableEq, Inhabited

/-- Source `NewsletterState` (workflow/state.py lines 197-231), with the two
timestamps as integer epochs and the stats dicts as association lists. -/
structure StateL where
  portfolio_context : String
  lookback_days : Int
  raw_items : List RawNewsItem
  deduped_items : List RawNewsItem
  collection_errors : List String
  dedupe_stats : List (String × Int)
  relevance_thresholds : List (PyStr × Int)
  triaged_items : List TriagedItem
  relevant_items : List TriagedItem
  triage_stats : List (String × Int)
  analyzed_items : List AnalyzedItem
  carve_out_opportunities : List CarveOutOpportunity
  carve_out_research_report : Option String
  carve_out_research_path : Option String
  newsletter : Option NewsletterL
  newsletter_html : String
  started_at : Option Int
  completed_at : Option Int
  errors : List String
  metrics : List (String × MVal)
deriving DecidableEq, Inhabited

/-- The `initial_state` dict of `run_newsletter_workflow` (graph.py lines
157-178). -/
def initial_state : StateL where
  portfolio_context := ""
  lookback_days := 7
  raw_items := []
  deduped_items := []
  collection_errors := []
  dedupe_stats := []
  relevance_thresholds := []
  triaged_items := []
  relevant_items := []
  triage_stats := []
  analyzed_items := []
  carve_out_opportunities := []
  carve_out_research_report := none
  carve_out_research_path := none
  newsletter := none
  newsletter_html := ""
  started_at := none
  completed_at := none
  errors := []
  metrics := []

/-- Workflow nodes (graph.py lines 87-98; `initialize` is spelled with a
trailing underscore). -/
inductive WNode where
  | initialize_
  | collect_rss
  | collect_search
  | triage
  | dedupe
  | fetch_full_content
  | analyze
  | curate
  | carve_out_research
  | compose
  | save
  | send_email
deriving DecidableEq, Inhabited

/-- Labels returned by the conditional router. -/
inductive Route where
  | analyze
  | skip_to_compose
deriving DecidableEq

/-- Source `should_analyze` (graph.py lines 40-46). -/
def should_analyze (s : StateL) : Route :=
  if s.relevant_items.length = 0 then .skip_to_compose else .analyze

/-- The target map of `add_conditional_edges` (graph.py lines 111-118). -/
def conditionalTarget : Route → WNode
  | .analyze => .fetch_full_content
  | .skip_to_compose => .compose

/-- The unconditional `add_edge` pairs of `create_newsletter_graph`
(graph.py lines 104-126); the `send_email → END` edge is the engine's `none`
successor below. -/
def graphEdges : List (WNode × WNode) :=
  [(.initialize_, .collect_rss), (.initialize_, .collect_search),
    (.collect_rss, .triage), (.collect_search, .triage), (.triage, .dedupe),
    (.fetch_full_content, .analyze), (.analyze, .curate),
    (.curate, .carve_out_research), (.carve_out_research, .compose),
    (.compose, .save), (.save, .send_email)]

/-- Engine successor relation: the graph of `create_newsletter_graph` with
the two parallel collectors scheduled rss-then-search; the only
state-dependent edge is the conditional one leaving `dedupe`, evaluated on
the state `dedupe` just produced. -/
def nextNode : WNode → StateL → Option WNode
  | .initialize_, _ => some .collect_rss
  | .collect_rss, _ => some .collect_search
  | .collect_search, _ => some .triage
  | .triage, _ => some .dedupe
  | .dedupe, s => some (conditionalTarget (should_analyze s))
  | .fetch_full_content, _ => some .analyze
  | .analyze, _ => some .curate
  | .curate, _ => some .carve_out_research
  | .carve_out_research, _ => some .compose
  | .compose, _ => some .save
  | .save, _ => some .send_email
  | .send_email, _ => none

/-- Topological height of each node; every successor has smaller rank. -/
def nodeRank : WNode → Nat
  | .initialize_ => 11
  | .collect_rss => 10
  | .collect_search => 9
  | .triage => 8
  | .dedupe => 7
  | .fetch_full_content => 6
  | .analyze => 5
  | .curate => 4
  | .carve_out_research => 3
  | .compose => 2
  | .save => 1
  | .send_email => 0

/-- Run the workflow to completion from a node: apply the node's transformer
and continue along the successor relation.  The fuel argument only serves
structural recursion; any value above `nodeRank n` is enough (see
`runFromFuel_fuel_irrelevant`). -/
def runFromFuel (f : WNode → StateL → StateL) : Nat → WNode → StateL → StateL
  | 0, _, s => s
  | fuel + 1, n, s =>
    let s' := f n s
    match nextNode n s' with
    | none => s'
    | some m => runFromFuel f fuel m s'

/-- Run exactly `j` node executions from a node, returning the pending node
(`none` when the run finished earlier) and the state persisted at that
boundary: the checkpoint the engine stores after the `j`-th node. -/
def runStepsFuel (f : WNode → StateL → StateL) : Nat → WNode → StateL → Option WNode × StateL
  | 0, n, s => (some n, s)
  | j + 1, n, s =>
    let s' := f n s
    match nextNode n s' with
    | none => (none, s')
    | some m => runStepsFuel f j m s'

/-- Resume from a persisted checkpoint: a finished run returns its state, an
unfinished one continues from the pending node. -/
def resumeFrom (f : WNode → StateL → StateL) (chk : Option WNode × StateL) : StateL :=
  match chk.1 with
  | none => chk.2
  | some n => runFromFuel f 12 n chk.2

/-- Full straight-through run from `initialize` on the initial state. -/
def runWorkflow (f : WNode → StateL → StateL) : StateL :=
  runFromFuel f 12 .initialize_ initial_state

/-- Checkpoint-store lookup (`checkpointer.aget(config)` keyed by thread id). -/
def lookupStore (store : List (String × (Option WNode × StateL))) (tid : String) :
    Option (Option WNode × StateL) :=
  (store.find? (fun kv => kv.1 == tid)).map (fun kv => kv.2)

/-- Source `run_newsletter_workflow` (graph.py lines 142-203): without
`resume`, invoke on the initial state; with `resume`, a missing checkpoint
for the thread id logs a warning and starts fresh on the initial state, and a
present checkpoint is continued (`ainvoke(None, config)`). -/
def run_newsletter_workflow (f : WNode → StateL → StateL)
    (store : List (String × (Option WNode × StateL))) (tid : String)
    (resume : Bool) : StateL :=
  if resume then
    match lookupStore store tid with
    | none => runWorkflow f
    | some chk => resumeFrom f chk
  else runWorkflow f

/-- Trace of nodes executed from a node (same recursion as `runFromFuel`). -/
def visitedFuel (f : WNode → StateL → StateL) : Nat → WNode → StateL → List WNode
  | 0, n, _ => [n]
  | fuel + 1, n, s =>
    let s' := f n s
    match nextNode n s' with
    | none => [n]
    | some m => n :: visitedFuel f fuel m s'

/-!
Email delivery node (`workflow/nodes.py`, `send_email_node`, lines 788-868).
The SMTP transport (`SmtpEmailSender.send_html`) is an external collaborator;
its outcome enters as `sendResult`.  The node returns partial state updates
(`errors`, `metrics`); they are applied to the full state here.
-/

/-- The settings fields `send_email_node` reads to decide whether and where
to send (host/port/TLS only parametrise the external sender). -/
structure EmailSettings where
  send_email : Bool
  from_email : String
  to_email : String
  smtp_username : String
  smtp_password : String
deriving DecidableEq

/-- Source `EmailSendResult` as consumed by the node: `success`,
`message_id`, `error`. -/
structure SendResult where
  success : Bool
  message_id : Option String
  error : Option String
deriving DecidableEq

/-- Source `_split_emails` (nodes.py lines 73-77). -/
def split_emails (value : String) : List String :=
  if value = "" then []
  else (((value.replace ";" ",").splitOn ",").map String.trim).filter (fun e => e ≠ "")

/-- Python `{**metrics, key: v}`: overwrite in place, or append a new key. -/
def dictSetMetric (m : List (String × MVal)) (k : String) (v : MVal) :
    List (String × MVal) :=
  if m.any (fun kv => kv.1 == k) then
    m.map (fun kv => if kv.1 == k then (kv.1, v) else kv)
  else m ++ [(k, v)]

/-- Shortcut for the repeated skip pattern: record the error and mark the
email status skipped. -/
def skipWithError (s : StateL) (err : String) : StateL :=
  { s with
    errors := s.errors ++ [err]
    metrics := dictSetMetric s.metrics "email_status" (.s "skipped") }

/-- Source `send_email_node` (nodes.py lines 788-868). -/
def send_email_node (cfg : EmailSettings) (sendResult : SendResult) (s : StateL) : StateL :=
  if !cfg.send_email then
    { s with metrics := dictSetMetric s.metrics "email_status" (.s "skipped") }
  else
    match s.newsletter with
    | none => skipWithError s "Email sending skipped: newsletter content missing."
    | some _ =>
      if s.newsletter_html = "" then
        skipWithError s "Email sending skipped: newsletter content missing."
      else
        let from_email := cfg.from_email.trim
        let to_emails := split_emails cfg.to_email
        if from_email = "" ∨ to_emails = [] then
          skipWithError s "Email sending skipped: FROM_EMAIL or TO_EMAIL not configured."
        else if cfg.smtp_username = "" ∨ cfg.smtp_password = "" then
          skipWithError s "Email sending skipped: SMTP credentials not configured."
        else if sendResult.success then
          let midVal := match sendResult.message_id with
            | some v => MVal.s v
            | none => MVal.nil
          let m1 := dictSetMetric s.metrics "email_status" (.s "sent")
          let m2 := dictSetMetric m1 "email_message_id" midVal
          let m3 := dictSetMetric m2 "email_recipients" (.n (to_emails.length : Int))
          { s with metrics := m3 }
        else
          let errText := match sendResult.error with
            | some e => e
            | none => "unknown error"
          let m1 := dictSetMetric s.metrics "email_status" (.s "failed")
          let m2 := dictSetMetric m1 "email_error" (.s errText)
          { s with
            errors := s.errors ++ ["Email send failed: " ++ errText]
            metrics := m2 }

/-- Metric lookup used to state the email-status results. -/
def metricOf (s : StateL) (k : String) : Option MVal :=
  (s.metrics.find? (fun kv => kv.1 == k)).map (fun kv => kv.2)

/-!
Supporting lemmas: Python `strip` is idempotent.
-/

/-- Dropping a satisfied prefix twice is the same as dropping it once. -/
theorem dropWhile_dropWhile (p : Char → Bool) (l : List Char) :
    (l.dropWhile p).dropWhile p = l.dropWhile p := by
  induction l with
  | nil => rfl
  | cons c rest ih =>
    by_cases h : p c
    · simp [List.dropWhile_cons, h, ih]
    · simp [List.dropWhile_cons, h]

/-- A left-stripped string strips to itself on the left. -/
theorem dropWhile_of_prefix_stripped (p : Char → Bool) (y x : List Char)
    (hpre : y <+: x) (hx : x.dropWhile p = x) : y.dropWhile p = y := by
  cases y with
  | nil => rfl
  | cons c t =>
    obtain ⟨r, hr⟩ := hpre
    by_cases h : p c
    · exfalso
      rw [← hr] at hx
      simp [List.dropWhile_cons, h] at hx
      have hlen := congrArg List.length hx
      have hle := (List.IsSuffix.sublist (@List.dropWhile_suffix Char (t ++ r) p)).length_le
      simp at hlen
      simp at hle
      omega
    · simp [List.dropWhile_cons, h]

/-- Python `strip` is idempotent. -/
theorem pStrip_idem (s : PyStr) : pStrip (pStrip s) = pStrip s := by
  unfold pStrip
  set p := isPySpace
  set x := s.dropWhile p with hx
  set y := ((x.reverse).dropWhile p).reverse with hy
  have hxfix : x.dropWhile p = x := dropWhile_dropWhile p s
  have hsuffix : (x.reverse).dropWhile p <:+ x.reverse := List.dropWhile_suffix p
  have hprefix : y <+: x := by
    have := List.reverse_prefix.mpr hsuffix
    simpa [hy] using this
  have hyfix : y.dropWhile p = y := dropWhile_of_prefix_stripped p y x hprefix hxfix
  have hrev : y.reverse = (x.reverse).dropWhile p := by
    simp [hy]
  calc ((y.dropWhile p).reverse.dropWhile p).reverse
      = ((y.reverse).dropWhile p).reverse := by rw [hyfix]
    _ = (((x.reverse).dropWhile p).dropWhile p).reverse := by rw [hrev]
    _ = ((x.reverse).dropWhile p).reverse := by rw [dropWhile_dropWhile]
    _ = y := by rw [← hy]

/-- Characterisation of `coerce_list` elements used below. -/
theorem mem_coerce_list_stripped {t : PyStr} {xs : List PyStr}
    (hmem : t ∈ xs) (hform : ∀ u ∈ xs, u = pStrip u) : pStrip t = t :=
  (hform t hmem).symm

/-- C8 (counterexample): `_coerce_list` does not deduplicate — a list field
holding the same string twice coerces to a list with both copies, so the
output is not a deduplicated list. -/
theorem C8_counterexample :
    coerce_list (.jlist [.jstr (strL "a"), .jstr (strL "a")]) = [strL "a", strL "a"]
      ∧ ¬ (coerce_list (.jlist [.jstr (strL "a"), .jstr (strL "a")])).Nodup := by
  constructor
  · decide
  · decide

/-- C8 (amended): for every raw value of a list-typed field in the shapes the
claim quantifies over (null, a single possibly comma-separated string, or a
proper list), `_coerce_list` returns a list of non-empty trimmed strings
(each element is non-empty and fixed by `strip`); the list is not
deduplicated. -/
theorem C8_coerce_list_trimmed_nonempty (v : JsonVal)
    (h : v = .null ∨ (∃ s, v = .jstr s) ∨ (∃ xs, v = .jlist xs)) :
    ∀ t ∈ coerce_list v, t ≠ [] ∧ pStrip t = t := by
  rcases h with h | ⟨s, h⟩ | ⟨xs, h⟩ <;> subst h
  · intro t ht
    simp [coerce_list] at ht
  · intro t ht
    simp only [coerce_list] at ht
    by_cases he : pStrip s = []
    · simp [he] at ht
    · rw [if_neg he] at ht
      by_cases hc : containsChar ',' (pStrip s) = true
      · rw [if_pos hc, List.mem_filter] at ht
        obtain ⟨hmem, hne⟩ := ht
        obtain ⟨part, _, hpart⟩ := List.mem_map.mp hmem
        refine ⟨by simpa using hne, ?_⟩
        rw [← hpart]
        exact pStrip_idem part
      · rw [if_neg hc] at ht
        simp at ht
        subst ht
        exact ⟨he, pStrip_idem s⟩
  · intro t ht
    simp only [coerce_list, List.mem_filter] at ht
    obtain ⟨hmem, hne⟩ := ht
    obtain ⟨x, _, hx⟩ := List.mem_map.mp hmem
    refine ⟨by simpa using hne, ?_⟩
    rw [← hx]
    exact pStrip_idem (pyStrOf x)

/-- C8 (witness): the amended statement applied to the concrete
comma-separated string value " a ,, b ". -/
theorem C8_witness :
    (JsonVal.jstr (strL " a ,, b ") = .null
        ∨ (∃ s, JsonVal.jstr (strL " a ,, b ") = .jstr s)
        ∨ (∃ xs, JsonVal.jstr (strL " a ,, b ") = .jlist xs))
      ∧ ∀ t ∈ coerce_list (.jstr (strL " a ,, b ")), t ≠ [] ∧ pStrip t = t :=
  ⟨Or.inr (Or.inl ⟨_, rfl⟩),
    C8_coerce_list_trimmed_nonempty _ (Or.inr (Or.inl ⟨_, rfl⟩))⟩

/-- C7: an exception from the LLM call / response reading during triage or
analysis of an item is converted into the deterministic flagged fallback
(triage: `is_relevant = false` with confidence 0 and the fixed reason;
analysis: "Analysis failed - manual review recommended." with signal score 0)
and never propagates: the batch still returns one result per input item. -/
theorem C7_item_failure_contained
    (callT : RawNewsItem → Except PyStr ParsedDict)
    (callA : TriagedItem → Except PyStr ParsedDict)
    (it : RawNewsItem) (ta : TriagedItem) (e₁ e₂ : PyStr)
    (hT : callT it = .error e₁) (hA : callA ta = .error e₂) :
    triage_item callT it = build_default_triaged_item it
      ∧ (triage_item callT it).is_relevant = false
      ∧ (triage_item callT it).confidence = 0
      ∧ analyze_item callA ta = build_default_analyzed_item ta
      ∧ (analyze_item callA ta).why_it_matters
          = strL "Analysis failed - manual review recommended."
      ∧ (analyze_item callA ta).signal_score = 0
      ∧ (∀ items : List RawNewsItem,
          (triage_batch 1 (triage_item callT) items []).length = items.length)
      ∧ (∀ items : List TriagedItem,
          ((analyze_batch 1 (analyze_item callA) (fun _ => none) items []).1).length
            = items.length) := by
  refine ⟨?_, ?_, ?_, ?_, ?_, ?_, ?_, ?_⟩
  · simp [triage_item, hT]
  · simp [triage_item, hT, build_default_triaged_item]
  · simp [triage_item, hT, build_default_triaged_item]
  · simp [analyze_item, hA]
  · simp [analyze_item, hA, build_default_analyzed_item]
  · simp [analyze_item, hA, build_default_analyzed_item]
  · intro items
    by_cases h0 : items.length = 0 <;> simp [triage_batch, h0]
  · intro items
    by_cases h0 : items.length = 0 <;> simp [analyze_batch, h0]

/-- C7 (witness): a call that always raises, on concrete items. -/
theorem C7_witness :
    ((fun _ : RawNewsItem => (Except.error [] : Except PyStr ParsedDict)) default
        = .error [])
      ∧ triage_item (fun _ => .error []) default
          = build_default_triaged_item (default : RawNewsItem)
      ∧ (analyze_item (fun _ => .error []) default).signal_score = 0 := by
  refine ⟨rfl, ?_, ?_⟩
  · exact (C7_item_failure_contained (fun _ => .error []) (fun _ => .error [])
      default default [] [] rfl rfl).1
  · exact (C7_item_failure_contained (fun _ => .error []) (fun _ => .error [])
      default default [] [] rfl rfl).2.2.2.2.2.1

/-!
Order preservation of the parallel batch (C1).
-/

/-- Slot assignment never changes the number of slots. -/
theorem assignSlots_length (f : α → β) (items : List α) (order : List Nat)
    (slots : List (Option β)) :
    (assignSlots f items order slots).length = slots.length := by
  induction order generalizing slots with
  | nil => rfl
  | cons idx rest ih => simp [assignSlots, ih]

/-- After replaying a completion order, slot `j` holds the processing of
input `j` whenever `j` completed, and is untouched otherwise. -/
theorem assignSlots_getElem? (f : α → β) (items : List α) (order : List Nat)
    (slots : List (Option β)) (hval : ∀ i ∈ order, i < slots.length) (j : Nat) :
    (assignSlots f items order slots)[j]? =
      if j ∈ order then some ((items[j]?).map f) else slots[j]? := by
  induction order generalizing slots with
  | nil => simp [assignSlots]
  | cons idx rest ih =>
    have hidx : idx < slots.length := hval idx (List.mem_cons_self _ _)
    have hval' : ∀ i ∈ rest, i < (slots.set idx ((items[idx]?).map f)).length := by
      intro i hi
      simpa using hval i (List.mem_cons_of_mem _ hi)
    rw [assignSlots, ih _ hval']
    by_cases hjr : j ∈ rest
    · simp [hjr]
    · by_cases hji : j = idx
      · subst hji
        simp [hjr, List.getElem?_set, hidx]
      · simp [hjr, hji, List.getElem?_set, Ne.symm hji]

/-- For every completion order that is a permutation of the indices, the
parallel batch equals the sequential map over the input. -/
theorem batchParallel_eq_map (f : α → β) (items : List α) (order : List Nat)
    (h : order.Perm (List.range items.length)) :
    batchParallel f items order = items.map f := by
  have hval : ∀ i ∈ order, i < (List.replicate items.length (none : Option β)).length := by
    intro i hi
    have := h.mem_iff.mp hi
    simpa [List.mem_range] using this
  have heq : assignSlots f items order (List.replicate items.length none)
      = items.map (fun a => some (f a)) := by
    apply List.ext_getElem?
    intro j
    rw [assignSlots_getElem? f items order _ hval j]
    by_cases hj : j < items.length
    · have hmem : j ∈ order := h.mem_iff.mpr (List.mem_range.mpr hj)
      simp [hmem, hj]
    · have hnot : j ∉ order := fun hc => hj (by
        simpa [List.mem_range] using h.mem_iff.mp hc)
      have hj' : items.length ≤ j := Nat.le_of_not_lt hj
      simp [hnot, List.getElem?_replicate, Nat.not_lt.mpr hj', List.getElem?_eq_none,
        List.getElem?_eq_none (by simpa using hj' : (items.map (fun a => some (f a))).length ≤ j)]
  unfold batchParallel
  rw [heq]
  rw [show (fun a => some (f a)) = some ∘ f from rfl]
  simp [List.filterMap_map, List.filterMap_eq_map]

/-- C1: with `workers > 1`, `triage_batch` and `analyze_batch` return the
input-order map of the per-item processing — the output has the input's
length and its `i`-th element is the result for the `i`-th input — for every
completion order of the worker pool (any permutation of the indices). -/
theorem C1_batch_preserves_input_order
    (workers : Nat) (hw : 1 < workers)
    (fT : RawNewsItem → TriagedItem) (itemsT : List RawNewsItem) (orderT : List Nat)
    (hT : orderT.Perm (List.range itemsT.length))
    (fA : TriagedItem → AnalyzedItem) (extractCO : AnalyzedItem → Option CarveOutOpportunity)
    (itemsA : List TriagedItem) (orderA : List Nat)
    (hA : orderA.Perm (List.range itemsA.length)) :
    triage_batch workers fT itemsT orderT = itemsT.map fT
      ∧ (triage_batch workers fT itemsT orderT).length = itemsT.length
      ∧ (∀ i (hi : i < itemsT.length),
          (triage_batch workers fT itemsT orderT)[i]? = some (fT (itemsT.get ⟨i, hi⟩)))
      ∧ (analyze_batch workers fA extractCO itemsA orderA).1 = itemsA.map fA
      ∧ ((analyze_batch workers fA extractCO itemsA orderA).1).length = itemsA.length
      ∧ (∀ i (hi : i < itemsA.length),
          ((analyze_batch workers fA extractCO itemsA orderA).1)[i]? = some (fA (itemsA.get ⟨i, hi⟩))) := by
  have hwle : ¬ workers ≤ 1 := by omega
  have h1 : triage_batch workers fT itemsT orderT = itemsT.map fT := by
    unfold triage_batch
    by_cases h0 : itemsT.length = 0
    · have : itemsT = [] := List.length_eq_zero.mp h0
      subst this
      simp
    · rw [if_neg h0, if_neg hwle]
      exact batchParallel_eq_map fT itemsT orderT hT
  have h2 : (analyze_batch workers fA extractCO itemsA orderA).1 = itemsA.map fA := by
    unfold analyze_batch
    by_cases h0 : itemsA.length = 0
    · have : itemsA = [] := List.length_eq_zero.mp h0
      subst this
      simp
    · rw [if_neg h0, if_neg hwle]
      exact batchParallel_eq_map fA itemsA orderA hA
  refine ⟨h1, by simp [h1], ?_, h2, by simp [h2], ?_⟩
  · intro i hi
    rw [h1]
    simp [List.getElem?_map, List.getElem?_eq_getElem hi]
  · intro i hi
    rw [h2]
    simp [List.getElem?_map, List.getElem?_eq_getElem hi]

/-- C1 (witness): three items completed in the order 2, 0, 1 by two workers. -/
theorem C1_witness :
    (1 < 2 ∧ ([2, 0, 1] : List Nat).Perm (List.range 3))
      ∧ triage_batch 2 build_default_triaged_item
          [default, default, default] [2, 0, 1]
        = [default, default, default].map build_default_triaged_item := by
  refine ⟨⟨by omega, by decide⟩, ?_⟩
  exact (C1_batch_preserves_input_order 2 (by omega)
    build_default_triaged_item [default, default, default] [2, 0, 1] (by decide)
    (fun ta => build_default_analyzed_item ta) (fun _ => none) [] [] (by decide)).1

/-!
Email misconfiguration handling (C9).
-/

/-- Key lookup after the overwrite-in-place branch of the metrics update. -/
theorem find_replace_metric (k : String) (v : MVal) (m : List (String × MVal))
    (h : m.any (fun kv => kv.1 == k)) :
    ((m.map (fun kv => if kv.1 == k then (kv.1, v) else kv)).find?
        (fun kv => kv.1 == k)).map (fun kv => kv.2) = some v := by
  induction m with
  | nil => simp at h
  | cons a rest ih =>
    by_cases ha : (a.1 == k) = true
    · rw [List.map_cons, List.find?_cons_of_pos]
      · simp [ha]
      · simp [ha]
    · have hrest : rest.any (fun kv => kv.1 == k) := by
        simp [List.any_cons, ha] at h
        simpa using h
      rw [List.map_cons, List.find?_cons_of_neg]
      · exact ih hrest
      · simp [ha]

/-- Looking a key up after `{**metrics, key: v}` yields `v`. -/
theorem find_dictSetMetric (m : List (String × MVal)) (k : String) (v : MVal) :
    ((dictSetMetric m k v).find? (fun kv => kv.1 == k)).map (fun kv => kv.2) = some v := by
  unfold dictSetMetric
  by_cases h : m.any (fun kv => kv.1 == k)
  · rw [if_pos h]
    exact find_replace_metric k v m h
  · rw [if_neg h]
    have hnone : m.find? (fun kv => kv.1 == k) = none := by
      rw [List.find?_eq_none]
      intro kv hkv
      intro hc
      exact h (List.any_of_mem hkv hc)
    rw [List.find?_append, hnone]
    simp

/-- Metric lookup through `skipWithError`. -/
theorem metricOf_skipWithError (s : StateL) (err : String) :
    metricOf (skipWithError s err) "email_status" = some (.s "skipped") := by
  unfold metricOf skipWithError
  exact find_dictSetMetric s.metrics "email_status" (.s "skipped")

/-- C9: with email sending enabled and a composed newsletter in state,
missing sender/recipient addresses or missing SMTP credentials do not raise:
the node appends the corresponding structured error to the state's error list
and records `email_status = "skipped"` in metrics, leaving the rest of the
state unchanged. -/
theorem C9_send_email_skips_on_misconfig
    (cfg : EmailSettings) (res : SendResult) (s : StateL) (nl : NewsletterL)
    (hen : cfg.send_email = true) (hnl : s.newsletter = some nl)
    (hhtml : s.newsletter_html ≠ "") :
    ((cfg.from_email.trim = "" ∨ split_emails cfg.to_email = []) →
        (send_email_node cfg res s).errors
            = s.errors ++ ["Email sending skipped: FROM_EMAIL or TO_EMAIL not configured."]
          ∧ metricOf (send_email_node cfg res s) "email_status" = some (.s "skipped")
          ∧ (send_email_node cfg res s).newsletter = s.newsletter
          ∧ (send_email_node cfg res s).analyzed_items = s.analyzed_items)
      ∧ (cfg.from_email.trim ≠ "" → split_emails cfg.to_email ≠ [] →
          (cfg.smtp_username = "" ∨ cfg.smtp_password = "") →
          (send_email_node cfg res s).errors
              = s.errors ++ ["Email sending skipped: SMTP credentials not configured."]
            ∧ metricOf (send_email_node cfg res s) "email_status" = some (.s "skipped")) := by
  constructor
  · intro hmiss
    have hnode : send_email_node cfg res s
        = skipWithError s "Email sending skipped: FROM_EMAIL or TO_EMAIL not configured." := by
      unfold send_email_node
      rw [hnl]
      simp only [hen, Bool.not_true, Bool.false_eq_true, if_false]
      rw [if_neg hhtml, if_pos hmiss]
    rw [hnode]
    exact ⟨rfl, metricOf_skipWithError _ _, rfl, rfl⟩
  · intro hfrom hto hcreds
    have hnode : send_email_node cfg res s
        = skipWithError s "Email sending skipped: SMTP credentials not configured." := by
      unfold send_email_node
      rw [hnl]
      simp only [hen, Bool.not_true, Bool.false_eq_true, if_false]
      rw [if_neg hhtml, if_neg (by tauto), if_pos hcreds]
    rw [hnode]
    exact ⟨rfl, metricOf_skipWithError _ _⟩

/-- C9 (witness): sending enabled, newsletter present, empty recipients and
empty SMTP password on concrete state. -/
theorem C9_witness :
    ((⟨true, "a@b.c", "", "u", "p"⟩ : EmailSettings).send_email = true
        ∧ ({ initial_state with newsletter := some ⟨"subj"⟩, newsletter_html := "<p>x</p>" }
            : StateL).newsletter = some ⟨"subj"⟩
        ∧ ({ initial_state with newsletter := some ⟨"subj"⟩, newsletter_html := "<p>x</p>" }
            : StateL).newsletter_html ≠ "")
      ∧ (send_email_node ⟨true, "a@b.c", "", "u", "p"⟩ ⟨true, none, none⟩
            { initial_state with newsletter := some ⟨"subj"⟩, newsletter_html := "<p>x</p>" }).errors
          = [] ++ ["Email sending skipped: FROM_EMAIL or TO_EMAIL not configured."] := by
  refine ⟨⟨rfl, rfl, by decide⟩, ?_⟩
  exact ((C9_send_email_skips_on_misconfig ⟨true, "a@b.c", "", "u", "p"⟩ ⟨true, none, none⟩
    { initial_state with newsletter := some ⟨"subj"⟩, newsletter_html := "<p>x</p>" } ⟨"subj"⟩
    rfl rfl (by decide)).1 (Or.inr (by decide))).1

/-!
Routing and checkpoint/resume (C6, C2).
-/

/-- Every successor has strictly smaller topological rank. -/
theorem nodeRank_next (n : WNode) (s : StateL) (m : WNode)
    (h : nextNode n s = some m) : nodeRank m < nodeRank n := by
  cases n <;> simp [nextNode] at h <;> try subst h
  all_goals
    first
    | decide
    | (cases hcs : should_analyze s <;> decide)

/-- One execution step of the runner. -/
theorem runFromFuel_succ_step (f : WNode → StateL → StateL) (fuel : Nat)
    (n : WNode) (s : StateL) (m : WNode) (hnx : nextNode n (f n s) = some m) :
    runFromFuel f (fuel + 1) n s = runFromFuel f fuel m (f n s) := by
  simp [runFromFuel, hnx]

/-- The runner's result does not depend on the fuel, as long as the fuel
exceeds the node's rank. -/
theorem runFromFuel_fuel_irrelevant (f : WNode → StateL → StateL) :
    ∀ (fuel₁ fuel₂ : Nat) (n : WNode) (s : StateL),
      nodeRank n < fuel₁ → nodeRank n < fuel₂ →
      runFromFuel f fuel₁ n s = runFromFuel f fuel₂ n s := by
  intro fuel₁
  induction fuel₁ with
  | zero =>
    intro fuel₂ n s h1 _
    exact absurd h1 (Nat.not_lt_zero _)
  | succ k ih =>
    intro fuel₂ n s h1 h2
    cases fuel₂ with
    | zero => exact absurd h2 (Nat.not_lt_zero _)
    | succ k₂ =>
      cases hnx : nextNode n (f n s) with
      | none => simp [runFromFuel, hnx]
      | some m =>
        have hm := nodeRank_next n (f n s) m hnx
        rw [runFromFuel_succ_step f k n s m hnx, runFromFuel_succ_step f k₂ n s m hnx]
        exact ih k₂ m (f n s) (by omega) (by omega)

/-- Resuming from the checkpoint persisted after any number of steps gives
the same final state as running straight through. -/
theorem resumeFrom_runSteps (f : WNode → StateL → StateL) :
    ∀ (j : Nat) (n : WNode) (s : StateL), nodeRank n < 12 →
      resumeFrom f (runStepsFuel f j n s) = runFromFuel f 12 n s := by
  intro j
  induction j with
  | zero =>
    intro n s _
    rfl
  | succ k ih =>
    intro n s h
    cases hnx : nextNode n (f n s) with
    | none =>
      have hlhs : resumeFrom f (runStepsFuel f (k + 1) n s) = f n s := by
        simp [runStepsFuel, hnx, resumeFrom]
      have hrhs : runFromFuel f (11 + 1) n s = f n s := by
        simp [runFromFuel, hnx]
      rw [hlhs]
      exact hrhs.symm
    | some m =>
      have hm := nodeRank_next n (f n s) m hnx
      calc resumeFrom f (runStepsFuel f (k + 1) n s)
          = resumeFrom f (runStepsFuel f k m (f n s)) := by
            simp [runStepsFuel, hnx]
        _ = runFromFuel f 12 m (f n s) := ih m (f n s) (by omega)
        _ = runFromFuel f 11 m (f n s) :=
            runFromFuel_fuel_irrelevant f 12 11 m (f n s) (by omega) (by omega)
        _ = runFromFuel f 12 n s := (runFromFuel_succ_step f 11 n s m hnx).symm

/-- C2: with deterministic node transformers, resuming under a thread id
whose checkpoint was persisted after any number of straight-run steps gives
a final state identical, field for field, to the uninterrupted run; and a
resume request with an unknown thread id falls back to a fresh run from
`initialize` instead of failing. -/
theorem C2_checkpoint_resume_equivalence
    (f : WNode → StateL → StateL) (store : List (String × (Option WNode × StateL)))
    (tid : String) (j : Nat) :
    (lookupStore store tid = some (runStepsFuel f j .initialize_ initial_state) →
        run_newsletter_workflow f store tid true
          = run_newsletter_workflow f store tid false)
      ∧ (lookupStore store tid = none →
        run_newsletter_workflow f store tid true
          = run_newsletter_workflow f store tid false) := by
  constructor
  · intro h
    simp only [run_newsletter_workflow, h, if_true, if_false, runWorkflow]
    exact resumeFrom_runSteps f j .initialize_ initial_state (by simp [nodeRank])
  · intro h
    simp [run_newsletter_workflow, h]

/-- C2 (witness): identity node transformers, a checkpoint taken after three
steps under thread id "t", and an unknown thread id on an empty store. -/
theorem C2_witness :
    lookupStore [("t", runStepsFuel (fun _ s => s) 3 .initialize_ initial_state)] "t"
        = some (runStepsFuel (fun _ s => s) 3 .initialize_ initial_state)
      ∧ run_newsletter_workflow (fun _ s => s)
            [("t", runStepsFuel (fun _ s => s) 3 .initialize_ initial_state)] "t" true
          = run_newsletter_workflow (fun _ s => s)
            [("t", runStepsFuel (fun _ s => s) 3 .initialize_ initial_state)] "t" false
      ∧ run_newsletter_workflow (fun _ s => s) [] "t" true
          = run_newsletter_workflow (fun _ s => s) [] "t" false := by
  have hl : lookupStore [("t", runStepsFuel (fun _ s => s) 3 .initialize_ initial_state)] "t"
      = some (runStepsFuel (fun _ s => s) 3 .initialize_ initial_state) := by
    simp [lookupStore]
  refine ⟨hl, ?_, ?_⟩
  · exact (C2_checkpoint_resume_equivalence (fun _ s => s)
      [("t", runStepsFuel (fun _ s => s) 3 .initialize_ initial_state)] "t" 3).1 hl
  · exact (C2_checkpoint_resume_equivalence (fun _ s => s) [] "t" 0).2 (by simp [lookupStore])

/-- C6: the conditional route is the single state-dependent edge, sits
immediately after `dedupe`, and is a pure function of
`len(relevant_items)`: zero routes `dedupe` straight to `compose` so the
remaining trace is compose-save-send (no fetch/analyze/curate), and non-zero
routes to `fetch_full_content` followed by the full analysis chain. -/
theorem C6_conditional_route (f : WNode → StateL → StateL) (s s₁ s₂ : StateL) :
    (s₁.relevant_items.length = s₂.relevant_items.length →
        should_analyze s₁ = should_analyze s₂)
      ∧ (should_analyze s = .skip_to_compose ↔ s.relevant_items.length = 0)
      ∧ nextNode .dedupe s = some (conditionalTarget (should_analyze s))
      ∧ (∀ n t₁ t₂, n ≠ WNode.dedupe → nextNode n t₁ = nextNode n t₂)
      ∧ ((f .dedupe s).relevant_items.length = 0 →
          visitedFuel f 12 .dedupe s = [.dedupe, .compose, .save, .send_email])
      ∧ ((f .dedupe s).relevant_items.length ≠ 0 →
          visitedFuel f 12 .dedupe s
            = [.dedupe, .fetch_full_content, .analyze, .curate, .carve_out_research,
                .compose, .save, .send_email]) := by
  refine ⟨?_, ?_, rfl, ?_, ?_, ?_⟩
  · intro h
    unfold should_analyze
    rw [h]
  · unfold should_analyze
    by_cases h : s.relevant_items.length = 0 <;> simp [h]
  · intro n t₁ t₂ hn
    cases n <;> first | rfl | exact absurd rfl hn
  · intro h
    have h1 : should_analyze (f .dedupe s) = .skip_to_compose := by
      simp [should_analyze, h]
    simp [visitedFuel, nextNode, conditionalTarget, h1]
  · intro h
    have h1 : should_analyze (f .dedupe s) = .analyze := by
      simp [should_analyze, h]
    simp [visitedFuel, nextNode, conditionalTarget, h1]

/-- C6 (witness): identity transformers on the initial state (zero relevant
items) take the skip route; a one-relevant-item state takes the full route. -/
theorem C6_witness :
    ((fun _ s => s) WNode.dedupe initial_state).relevant_items.length = 0
      ∧ visitedFuel (fun _ s => s) 12 .dedupe initial_state
          = [.dedupe, .compose, .save, .send_email]
      ∧ visitedFuel (fun _ s => s) 12 .dedupe
            { initial_state with relevant_items := [default] }
          = [.dedupe, .fetch_full_content, .analyze, .curate, .carve_out_research,
              .compose, .save, .send_email] := by
  refine ⟨rfl, ?_, ?_⟩
  · exact (C6_conditional_route (fun _ s => s) initial_state initial_state
      initial_state).2.2.2.2.1 rfl
  · exact (C6_conditional_route (fun _ s => s)
      { initial_state with relevant_items := [default] } initial_state
      initial_state).2.2.2.2.2 (by simp)

/-!
Title-normalization facts (C5).
-/

/-- Tokens produced by `split()` are non-empty, whitespace-free pieces of the
input. -/
theorem splitWs_sound (s : PyStr) :
    ∀ tok ∈ splitWs s, tok ≠ [] ∧ ∀ c ∈ tok, c ∈ s ∧ isPySpace c = false := by
  induction s with
  | nil =>
    intro tok h
    simp [splitWs] at h
  | cons c rest ih =>
    intro tok htok
    by_cases hc : isPySpace c = true
    · rw [splitWs, if_pos hc] at htok
      obtain ⟨hne, hch⟩ := ih tok htok
      exact ⟨hne, fun d hd => ⟨List.mem_cons_of_mem _ (hch d hd).1, (hch d hd).2⟩⟩
    · rw [splitWs, if_neg hc] at htok
      have hc' : isPySpace c = false := by simpa using hc
      cases h1 : splitWs rest with
      | nil =>
        rw [h1] at htok
        simp at htok
        subst htok
        refine ⟨by simp, ?_⟩
        intro d hd
        simp at hd
        subst hd
        exact ⟨List.mem_cons_self _ _, hc'⟩
      | cons t ts =>
        rw [h1] at htok
        cases rest with
        | nil => simp [splitWs] at h1
        | cons d rest' =>
          by_cases hd : isPySpace d = true
          · simp only [hd, if_true] at htok
            rcases List.mem_cons.mp htok with h2 | h2
            · subst h2
              refine ⟨by simp, ?_⟩
              intro e he
              simp at he
              subst he
              exact ⟨List.mem_cons_self _ _, hc'⟩
            · obtain ⟨hne, hch⟩ := ih tok (h1 ▸ h2)
              exact ⟨hne, fun e he => ⟨List.mem_cons_of_mem _ (hch e he).1, (hch e he).2⟩⟩
          · simp only [hd, if_false] at htok
            rcases List.mem_cons.mp htok with h2 | h2
            · subst h2
              have ht := ih t (by rw [h1]; exact List.mem_cons_self _ _)
              refine ⟨by simp, ?_⟩
              intro e he
              rcases List.mem_cons.mp he with he | he
              · subst he
                exact ⟨List.mem_cons_self _ _, hc'⟩
              · exact ⟨List.mem_cons_of_mem _ (ht.2 e he).1, (ht.2 e he).2⟩
            · obtain ⟨hne, hch⟩ := ih tok (by rw [h1]; exact List.mem_cons_of_mem _ h2)
              exact ⟨hne, fun e he => ⟨List.mem_cons_of_mem _ (hch e he).1, (hch e he).2⟩⟩

/-- A non-empty whitespace-free string splits to itself. -/
theorem splitWs_single (t : PyStr) (hne : t ≠ [])
    (hsp : ∀ c ∈ t, isPySpace c = false) : splitWs t = [t] := by
  induction t with
  | nil => exact absurd rfl hne
  | cons c t' ih =>
    have hc : isPySpace c = false := hsp c (List.mem_cons_self _ _)
    rw [splitWs, if_neg (by simp [hc])]
    cases t' with
    | nil => simp [splitWs]
    | cons d t'' =>
      have hd : isPySpace d = false := hsp d (List.mem_cons_of_mem _ (List.mem_cons_self _ _))
      have ht' : splitWs (d :: t'') = [d :: t''] :=
        ih (by simp) (fun e he => hsp e (List.mem_cons_of_mem _ he))
      rw [ht']
      simp [hd]

/-- Splitting a token, a space, and a remainder yields the token followed by
the split of the remainder. -/
theorem splitWs_append_space (t u : PyStr) (hne : t ≠ [])
    (hsp : ∀ c ∈ t, isPySpace c = false) :
    splitWs (t ++ ' ' :: u) = t :: splitWs u := by
  induction t with
  | nil => exact absurd rfl hne
  | cons c t' ih =>
    have hc : isPySpace c = false := hsp c (List.mem_cons_self _ _)
    rw [List.cons_append, splitWs, if_neg (by simp [hc])]
    cases t' with
    | nil =>
      rw [List.nil_append]
      rw [show splitWs (' ' :: u) = splitWs u from by rw [splitWs, if_pos (by decide)]]
      cases h1 : splitWs u with
      | nil => simp
      | cons tk tks =>
        have hsp' : isPySpace ' ' = true := by decide
        simp [h1, hsp']
    | cons d t'' =>
      have hd : isPySpace d = false := hsp d (List.mem_cons_of_mem _ (List.mem_cons_self _ _))
      have ih' : splitWs ((d :: t'') ++ ' ' :: u) = (d :: t'') :: splitWs u :=
        ih (by simp) (fun e he => hsp e (List.mem_cons_of_mem _ he))
      rw [ih']
      simp [hd]

/-- Splitting the single-space join of non-empty whitespace-free tokens
recovers the tokens. -/
theorem splitWs_joinWith (ts : List PyStr)
    (h : ∀ t ∈ ts, t ≠ [] ∧ ∀ c ∈ t, isPySpace c = false) :
    splitWs (joinWith ' ' ts) = ts := by
  induction ts with
  | nil => rfl
  | cons t ts' ih =>
    cases ts' with
    | nil =>
      exact splitWs_single t (h t (List.mem_cons_self _ _)).1 (h t (List.mem_cons_self _ _)).2
    | cons t₂ ts'' =>
      show splitWs (t ++ ' ' :: joinWith ' ' (t₂ :: ts'')) = _
      rw [splitWs_append_space t _ (h t (List.mem_cons_self _ _)).1
        (h t (List.mem_cons_self _ _)).2]
      rw [ih (fun u hu => h u (List.mem_cons_of_mem _ hu))]

/-- A character surviving the punctuation substitution as non-whitespace is a
lowercase letter or a digit. -/
theorem normSub_not_space (c : Char) (h : isPySpace (normSub c) = false) :
    ('a' ≤ normSub c ∧ normSub c ≤ 'z') ∨ ('0' ≤ normSub c ∧ normSub c ≤ '9') := by
  unfold normSub at h ⊢
  by_cases hc : (('a' ≤ c && c ≤ 'z') || ('0' ≤ c && c ≤ '9') || isPySpace c) = true
  · rw [if_pos hc] at h ⊢
    simp only [Bool.or_eq_true, Bool.and_eq_true, decide_eq_true_eq] at hc
    rcases hc with (h1 | h1) | h1
    · exact Or.inl h1
    · exact Or.inr h1
    · rw [h1] at h
      exact absurd h (by simp)
  · rw [if_neg hc] at h
    exact absurd h (by decide)

/-- C5-supporting fact: every token of a normalized title is non-empty,
purely lowercase-alphanumeric, and not a stop word. -/
theorem normalize_title_tokens (t : PyStr) :
    ∀ tok ∈ splitWs (normalize_title t),
      tok ≠ [] ∧ (∀ c ∈ tok, ('a' ≤ c ∧ c ≤ 'z') ∨ ('0' ≤ c ∧ c ≤ '9'))
        ∧ tok ∉ STOPWORDS := by
  have hts : ∀ u ∈ (splitWs ((pyLower t).map normSub)).filter
      (fun tok => !STOPWORDS.contains tok),
      u ≠ [] ∧ ∀ c ∈ u, isPySpace c = false := by
    intro u hu
    have hu' := (List.mem_filter.mp hu).1
    exact ⟨(splitWs_sound _ u hu').1, fun c hc => ((splitWs_sound _ u hu').2 c hc).2⟩
  have hnorm : splitWs (normalize_title t)
      = (splitWs ((pyLower t).map normSub)).filter (fun tok => !STOPWORDS.contains tok) := by
    unfold normalize_title
    exact splitWs_joinWith _ hts
  rw [hnorm]
  intro tok htok
  have hfil := List.mem_filter.mp htok
  have hsound := splitWs_sound ((pyLower t).map normSub) tok hfil.1
  refine ⟨hsound.1, ?_, ?_⟩
  · intro c hc
    obtain ⟨hmem, hnsp⟩ := hsound.2 c hc
    obtain ⟨orig, _, horig⟩ := List.mem_map.mp hmem
    rw [← horig]
    exact normSub_not_space orig (by rw [horig]; exact hnsp)
  · intro hmem
    have := hfil.2
    simp only [Bool.not_eq_true'] at this
    rw [List.contains_eq_any_beq] at this
    have : STOPWORDS.any (fun x => tok == x) = true :=
      List.any_of_mem hmem (by simp)
    simp_all

/-- Concrete item builder for the counterexamples and witnesses below. -/
def mkRaw (idv title summary source url : String) : RawNewsItem :=
  ⟨strL idv, strL title, strL summary, strL source, strL url, none, none, none⟩

/-- Counterexample item: title "Alpha Beta". -/
def cex5X : RawNewsItem := mkRaw "x1" "Alpha Beta" "sum" "rss" "https://x.com/a"

/-- Counterexample item: title "Beta Alpha", a permutation of the same
tokens. -/
def cex5Y : RawNewsItem := mkRaw "y1" "Beta Alpha" "sum" "rss" "https://y.com/b"

/-- C5 (counterexample): the similarity the code computes is not a
normalized-token set-overlap ratio: for the token-permuted titles
"Alpha Beta" / "Beta Alpha" the token-set overlap is 1 (≥ 0.9, so the claim
would group the items), while `_title_similarity` is the SequenceMatcher
ratio 0.5 (< 0.9) and `_group_duplicates` leaves the two items apart. -/
theorem C5_counterexample :
    simThreshold ≤ title_similarity_specTokens cex5X.title cex5Y.title
      ∧ title_similarity cex5X.title cex5Y.title < simThreshold
      ∧ group_duplicates simThreshold [cex5X, cex5Y] = [[cex5X], [cex5Y]] := by
  refine ⟨by decide, by decide, by decide⟩

/-- C5 (amended): `_title_similarity` is the difflib `SequenceMatcher.ratio`
of the two normalized titles (0 when either normalizes to empty) — not a
token set-overlap ratio; normalization lowercases, maps punctuation to
spaces, drops the stop-word list and collapses whitespace, so every token of
a normalized title is non-empty, lowercase-alphanumeric and not a stop word;
and two items not grouped by URL are grouped together exactly when the ratio
reaches the configured threshold. -/
theorem C5_similarity_and_grouping (a b : PyStr) (thr : Frac) (x y : RawNewsItem)
    (hurl : canonical_url x.source_url ≠ canonical_url y.source_url)
    (hid : x.id ≠ y.id) :
    title_similarity a b
        = (if normalize_title a = [] ∨ normalize_title b = [] then (⟨0, 1⟩ : Frac)
          else ratioScore (normalize_title a) (normalize_title b))
      ∧ (∀ tok ∈ splitWs (normalize_title a),
          tok ≠ [] ∧ (∀ c ∈ tok, ('a' ≤ c ∧ c ≤ 'z') ∨ ('0' ≤ c ∧ c ≤ '9'))
            ∧ tok ∉ STOPWORDS)
      ∧ group_duplicates thr [x, y]
          = (if thr ≤ title_similarity x.title y.title then [[x, y]] else [[x], [y]]) := by
  refine ⟨rfl, normalize_title_tokens a, ?_⟩
  by_cases hsim : thr ≤ title_similarity x.title y.title
  · simp [group_duplicates, groupByUrl, addToGroups, splitUrlGroups, fuzzyGroups,
      collectSimilar, hurl, Ne.symm hurl, hid, Ne.symm hid, hsim]
  · simp [group_duplicates, groupByUrl, addToGroups, splitUrlGroups, fuzzyGroups,
      collectSimilar, hurl, Ne.symm hurl, hid, Ne.symm hid, hsim]

/-- C5 (witness): the amended grouping statement applied to the two concrete
counterexample items. -/
theorem C5_witness :
    group_duplicates simThreshold [cex5X, cex5Y]
      = (if simThreshold ≤ title_similarity cex5X.title cex5Y.title
          then [[cex5X, cex5Y]] else [[cex5X], [cex5Y]]) :=
  (C5_similarity_and_grouping cex5X.title cex5Y.title simThreshold cex5X cex5Y
    (by decide) (by decide)).2.2

/-!
Carve-out retention through curation (C3).
-/

/-- Concrete portfolio-category triaged item for the C3 scenarios. -/
def mkTriagedP (idv : String) : TriagedItem :=
  ⟨mkRaw idv "t" "s" "rss" "https://e.com/x", true, .portfolio, .not_a_deal, .low, 50,
    none, [], none, []⟩

/-- Concrete portfolio-category analyzed item with a given score and
carve-out potential (and no carve-out target units). -/
def mkAnalyzedP (idv : String) (score : Int) (pot : CarveOutPotential) : AnalyzedItem :=
  ⟨mkTriagedP idv, [], [], [], none, [], pot, none, [], [], score, []⟩

/-- The C3 counterexample input: three high-scoring items filling the single
portfolio group to its cap, plus a low-scoring high-potential item. -/
def c3items : List AnalyzedItem :=
  [mkAnalyzedP "a" 90 .none_, mkAnalyzedP "b" 80 .none_, mkAnalyzedP "c" 70 .none_,
    mkAnalyzedP "hi" 10 .high]

/-- C3 (counterexample): with the default caps and an empty carve-out list, a
below-threshold item with `carve_out_potential = high` but no extracted
carve-out opportunity is capped out of the portfolio group and is NOT
retained in the curated selection. -/
theorem C3_counterexample :
    (mkAnalyzedP "hi" 10 .high).signal_score
        < threshold_for defaultCurateSettings [] (mkAnalyzedP "hi" 10 .high)
      ∧ (mkAnalyzedP "hi" 10 .high).carve_out_potential = .high
      ∧ mkAnalyzedP "hi" 10 .high ∈ c3items
      ∧ mkAnalyzedP "hi" 10 .high ∉
          (curate_node defaultCurateSettings [] (fun _ => none) (fun _ => none)
            c3items []).1 := by
  refine ⟨by decide, by decide, by decide, by decide⟩

/-- Items already selected survive the carve-out re-add pass. -/
theorem readdCarveOuts_mono (cids : List PyStr) :
    ∀ (rest selected : List AnalyzedItem) (ids : List PyStr) (y : AnalyzedItem),
      y ∈ selected → y ∈ readdCarveOuts cids rest selected ids := by
  intro rest
  induction rest with
  | nil =>
    intro selected ids y hy
    simpa [readdCarveOuts] using hy
  | cons it rest' ih =>
    intro selected ids y hy
    by_cases hc : (cids.contains it.triaged_item.raw_item.id
        && !ids.contains it.triaged_item.raw_item.id) = true
    · simp only [readdCarveOuts, hc, if_true]
      exact ih _ _ y (List.mem_append_left _ hy)
    · simp only [readdCarveOuts]
      rw [if_neg hc]
      exact ih _ _ y hy

/-- After the re-add pass, every walked item whose id is a carve-out source
id has a representative of its id in the selection. -/
theorem readdCarveOuts_covers (cids : List PyStr) :
    ∀ (rest selected : List AnalyzedItem) (ids : List PyStr),
      (∀ i, ids.contains i = true →
        ∃ y ∈ selected, y.triaged_item.raw_item.id = i) →
      ∀ x ∈ rest, cids.contains x.triaged_item.raw_item.id = true →
      ∃ y ∈ readdCarveOuts cids rest selected ids,
        y.triaged_item.raw_item.id = x.triaged_item.raw_item.id := by
  intro rest
  induction rest with
  | nil =>
    intro _ _ _ x hx _
    exact absurd hx (List.not_mem_nil x)
  | cons it rest' ih =>
    intro selected ids hin x hx hcx
    by_cases hc : (cids.contains it.triaged_item.raw_item.id
        && !ids.contains it.triaged_item.raw_item.id) = true
    · simp only [readdCarveOuts, hc, if_true]
      have hin' : ∀ i, (it.triaged_item.raw_item.id :: ids).contains i = true →
          ∃ y ∈ selected ++ [it], y.triaged_item.raw_item.id = i := by
        intro i hi
        have hi' : i = it.triaged_item.raw_item.id ∨ ids.contains i = true := by
          simpa [List.contains_cons] using hi
        rcases hi' with hi' | hi'
        · exact ⟨it, List.mem_append_right _ (by simp), hi'.symm⟩
        · obtain ⟨y, hy, hyid⟩ := hin i hi'
          exact ⟨y, List.mem_append_left _ hy, hyid⟩
      rcases List.mem_cons.mp hx with h2 | h2
      · subst h2
        exact ⟨x, readdCarveOuts_mono cids rest' _ _ x (List.mem_append_right _ (by simp)), rfl⟩
      · exact ih _ _ hin' x h2 hcx
    · simp only [readdCarveOuts]
      rw [if_neg hc]
      rcases List.mem_cons.mp hx with h2 | h2
      · subst h2
        have hid : ids.contains x.triaged_item.raw_item.id = true := by
          rcases Bool.eq_false_or_eq_true (ids.contains x.triaged_item.raw_item.id) with h | h
          · exact h
          · exact absurd (by rw [hcx, h]; rfl) hc
        obtain ⟨y, hy, hyid⟩ := hin _ hid
        exact ⟨y, readdCarveOuts_mono cids rest' _ _ y hy, hyid⟩
      · exact ih _ _ hin x h2 hcx

/-- C3 (amended): an analyzed item with high (or medium) carve-out potential
always survives the score-threshold filter regardless of its score; it is
guaranteed a place in the final curated selection when a carve-out
opportunity in the node's carve-out list references its id (the re-add pass
after category capping restores it); category capping alone may still drop a
high-potential item no carve-out opportunity references (see the
counterexample). -/
theorem C3_carve_out_retention
    (cfg : CurateSettings) (thresholds : List (PyStr × Int))
    (gP gC : AnalyzedItem → Option PyStr)
    (items : List AnalyzedItem) (carve_outs : List CarveOutOpportunity)
    (x : AnalyzedItem) (hx : x ∈ items)
    (hcat : ∀ y ∈ items, y.triaged_item.category ≠ .not_relevant)
    (hpot : x.carve_out_potential = .high ∨ x.carve_out_potential = .medium) :
    x ∈ curateFiltered cfg thresholds items
      ∧ ((carveOutIds carve_outs).contains x.triaged_item.raw_item.id = true →
          ∃ y ∈ (curate_node cfg thresholds gP gC items carve_outs).1,
            y.triaged_item.raw_item.id = x.triaged_item.raw_item.id) := by
  have hfil : x ∈ curateFiltered cfg thresholds items := by
    unfold curateFiltered
    rw [List.mem_filter]
    refine ⟨hx, ?_⟩
    rcases hpot with h | h <;> simp [h]
  refine ⟨hfil, ?_⟩
  intro hco
  have hne : items.isEmpty = false := by
    rcases items with _ | ⟨a, l⟩
    · exact absurd hx (List.not_mem_nil x)
    · rfl
  unfold curate_node
  rw [if_neg (by simp [hne])]
  refine readdCarveOuts_covers (carveOutIds carve_outs)
    (curateFiltered cfg thresholds items) _ _ ?_ x hfil hco
  intro i hi
  have hmem : i ∈ List.map (fun it => it.triaged_item.raw_item.id)
      (cap_by_group gP cfg.max_items_per_portfolio_company cfg.max_portfolio_items
          ((curateFiltered cfg thresholds items).filter
            (fun it => it.triaged_item.category = .portfolio))
        ++ cap_by_group gC cfg.max_items_per_cluster
          (cfg.max_competitor_items + cfg.max_industry_items)
          ((curateFiltered cfg thresholds items).filter
              (fun it => it.triaged_item.category = .competitor)
            ++ (curateFiltered cfg thresholds items).filter
              (fun it => it.triaged_item.category = .industry))
        ++ cap_by_group gC cfg.max_items_per_cluster cfg.max_deal_items
          ((curateFiltered cfg thresholds items).filter
            (fun it => it.triaged_item.category = .major_deal))) := by
    simpa using hi
  obtain ⟨y, hyS, hyid⟩ := List.mem_map.mp hmem
  exact ⟨y, hyS, hyid⟩

/-- A carve-out opportunity referencing the C3 witness item. -/
def c3wco : CarveOutOpportunity :=
  ⟨mkAnalyzedP "hi" 10 .high, [mkAnalyzedP "hi" 10 .high], strL "T", [strL "unit"],
    [], [], strL "high"⟩

/-- C3 (witness): the amended retention statement on a concrete
below-threshold high-potential item referenced by a carve-out opportunity. -/
theorem C3_witness :
    mkAnalyzedP "hi" 10 .high
        ∈ curateFiltered defaultCurateSettings [] [mkAnalyzedP "hi" 10 .high]
      ∧ ∃ y ∈ (curate_node defaultCurateSettings [] (fun _ => none) (fun _ => none)
          [mkAnalyzedP "hi" 10 .high] [c3wco]).1,
          y.triaged_item.raw_item.id
            = (mkAnalyzedP "hi" 10 .high).triaged_item.raw_item.id := by
  have h := C3_carve_out_retention defaultCurateSettings [] (fun _ => none) (fun _ => none)
    [mkAnalyzedP "hi" 10 .high] [c3wco] (mkAnalyzedP "hi" 10 .high)
    (by decide) (by decide) (Or.inl rfl)
  exact ⟨h.1, h.2 (by decide)⟩

/-!
Partition facts of the duplicate grouping (C10, C4).
-/

/-- Adding an item to its URL bucket adds exactly that item to the bucket
contents. -/
theorem addToGroups_flatten_perm (k : PyStr) (it : RawNewsItem)
    (gs : List (PyStr × List RawNewsItem)) :
    ((addToGroups k it gs).map (fun kv => kv.2)).flatten.Perm
      (((gs.map (fun kv => kv.2)).flatten) ++ [it]) := by
  induction gs with
  | nil => simp [addToGroups]
  | cons kv rest ih =>
    rcases kv with ⟨k', g⟩
    by_cases hk : k' = k
    · subst hk
      rw [show addToGroups k' it ((k', g) :: rest) = (k', g ++ [it]) :: rest from by
        simp [addToGroups]]
      simp only [List.map_cons, List.flatten_cons]
      have p := List.Perm.append_left g
        (@List.perm_append_comm RawNewsItem [it] ((rest.map (fun kv => kv.2)).flatten))
      simpa [List.append_assoc] using p
    · rw [show addToGroups k it ((k', g) :: rest) = (k', g) :: addToGroups k it rest from by
        simp [addToGroups, hk]]
      simp only [List.map_cons, List.flatten_cons]
      have p := List.Perm.append_left g ih
      simpa [List.append_assoc] using p

/-- The URL buckets of `_group_duplicates` partition the input items. -/
theorem groupByUrl_flatten_perm (items : List RawNewsItem) :
    ((groupByUrl items).map (fun kv => kv.2)).flatten.Perm items := by
  have aux : ∀ (l : List RawNewsItem) (acc : List (PyStr × List RawNewsItem)),
      ((l.foldl (fun a it => addToGroups (canonical_url it.source_url) it a) acc).map
          (fun kv => kv.2)).flatten.Perm
        (((acc.map (fun kv => kv.2)).flatten) ++ l) := by
    intro l
    induction l with
    | nil =>
      intro acc
      simp
    | cons it rest ih =>
      intro acc
      have h1 := ih (addToGroups (canonical_url it.source_url) it acc)
      have h2 := List.Perm.append_right rest
        (addToGroups_flatten_perm (canonical_url it.source_url) it acc)
      refine h1.trans (h2.trans ?_)
      simp [List.append_assoc]
  have := aux items []
  simpa [groupByUrl] using this

/-- URL buckets are never empty. -/
theorem groupByUrl_buckets_ne_nil (items : List RawNewsItem) :
    ∀ kv ∈ groupByUrl items, kv.2 ≠ [] := by
  have haux : ∀ (k : PyStr) (it : RawNewsItem) (gs : List (PyStr × List RawNewsItem)),
      (∀ kv ∈ gs, kv.2 ≠ []) → ∀ kv ∈ addToGroups k it gs, kv.2 ≠ [] := by
    intro k it gs
    induction gs with
    | nil =>
      intro _ kv hkv
      simp only [addToGroups, List.mem_singleton] at hkv
      subst hkv
      simp
    | cons a rest ih =>
      intro hgs kv hkv
      rcases a with ⟨ka, ga⟩
      by_cases hk : ka = k
      · subst hk
        rw [show addToGroups ka it ((ka, ga) :: rest) = (ka, ga ++ [it]) :: rest from by
          simp [addToGroups]] at hkv
        rcases List.mem_cons.mp hkv with h | h
        · subst h
          simp
        · exact hgs kv (List.mem_cons_of_mem _ h)
      · rw [show addToGroups k it ((ka, ga) :: rest) = (ka, ga) :: addToGroups k it rest from by
          simp [addToGroups, hk]] at hkv
        rcases List.mem_cons.mp hkv with h | h
        · subst h
          exact hgs (ka, ga) (List.mem_cons_self _ _)
        · exact ih (fun u hu => hgs u (List.mem_cons_of_mem _ hu)) kv h
  have aux : ∀ (l : List RawNewsItem) (acc : List (PyStr × List RawNewsItem)),
      (∀ kv ∈ acc, kv.2 ≠ []) →
      ∀ kv ∈ l.foldl (fun a it => addToGroups (canonical_url it.source_url) it a) acc,
        kv.2 ≠ [] := by
    intro l
    induction l with
    | nil =>
      intro acc hacc kv hkv
      exact hacc kv hkv
    | cons it rest ih =>
      intro acc hacc kv hkv
      exact ih _ (haux _ it acc hacc) kv hkv
  intro kv hkv
  exact aux items [] (by simp) kv hkv

/-- Splitting the buckets into multi-groups and loose items preserves the
contents. -/
theorem splitUrlGroups_perm (bs : List (PyStr × List RawNewsItem))
    (hne : ∀ kv ∈ bs, kv.2 ≠ []) :
    ((splitUrlGroups bs).1.flatten ++ (splitUrlGroups bs).2).Perm
      ((bs.map (fun kv => kv.2)).flatten) := by
  induction bs with
  | nil => simp [splitUrlGroups]
  | cons kv rest ih =>
    rcases kv with ⟨k, g⟩
    have ih' := ih (fun u hu => hne u (List.mem_cons_of_mem _ hu))
    by_cases hg : 1 < g.length
    · simp only [splitUrlGroups, if_pos hg, List.map_cons, List.flatten_cons,
        List.append_assoc]
      exact List.Perm.append_left g ih'
    · have hgne : g ≠ [] := hne (k, g) (List.mem_cons_self _ _)
      have hone : ∃ x, g = [x] := by
        rcases g with _ | ⟨x, t⟩
        · exact absurd rfl hgne
        · rcases t with _ | ⟨y, t'⟩
          · exact ⟨x, rfl⟩
          · exfalso
            simp at hg
      obtain ⟨x, hx⟩ := hone
      subst hx
      simp only [splitUrlGroups, if_neg hg, List.map_cons, List.flatten_cons, List.headI]
      refine List.Perm.trans List.perm_middle ?_
      exact ih'.cons x

/-- Distinct mapped ids make `id` injective on the list. -/
theorem id_inj_of_nodup {l : List RawNewsItem}
    (h : (l.map (fun it => it.id)).Nodup) {x y : RawNewsItem}
    (hx : x ∈ l) (hy : y ∈ l) (hxy : x.id = y.id) : x = y :=
  List.inj_on_of_nodup_map h hx hy hxy

/-- With pairwise-distinct ids, the inner fuzzy collection returns exactly
the not-yet-used later items similar to the seed, and marks exactly their
ids used. -/
theorem collectSimilar_eq (thr : Frac) (item : RawNewsItem) :
    ∀ (rest : List RawNewsItem) (used : List PyStr),
      (rest.map (fun it => it.id)).Nodup →
      collectSimilar thr item rest used
        = (rest.filter (fun o => decide (o.id ∉ used)
              && decide (thr ≤ title_similarity item.title o.title)),
           ((rest.filter (fun o => decide (o.id ∉ used)
              && decide (thr ≤ title_similarity item.title o.title))).map
                (fun it => it.id)).reverse ++ used) := by
  intro rest
  induction rest with
  | nil =>
    intro used _
    simp [collectSimilar]
  | cons o rest' ih =>
    intro used h
    have h' : (o.id :: rest'.map (fun it => it.id)).Nodup := by simpa using h
    obtain ⟨ho, hrest⟩ := List.nodup_cons.mp h'
    by_cases hu : o.id ∈ used
    · simp only [collectSimilar, if_pos hu]
      rw [List.filter_cons_of_neg (by simp [hu])]
      exact ih used hrest
    · by_cases hsim : thr ≤ title_similarity item.title o.title
      · simp only [collectSimilar, if_neg hu, if_pos hsim]
        rw [ih (o.id :: used) hrest]
        have hfilt : rest'.filter (fun x => decide (x.id ∉ (o.id :: used))
              && decide (thr ≤ title_similarity item.title x.title))
            = rest'.filter (fun x => decide (x.id ∉ used)
              && decide (thr ≤ title_similarity item.title x.title)) := by
          apply List.filter_congr
          intro x hx
          have hne : x.id ≠ o.id := by
            intro he
            exact ho (he ▸ List.mem_map_of_mem (fun it => it.id) hx)
          simp [List.mem_cons, hne]
        rw [hfilt]
        rw [List.filter_cons_of_pos (by simp [hu, hsim])]
        simp [List.reverse_cons, List.append_assoc]
      · simp only [collectSimilar, if_neg hu, if_neg hsim]
        rw [ih used hrest]
        rw [List.filter_cons_of_neg (by simp [hsim])]

/-- Unfolding of one outer fuzzy step on a fresh seed. -/
theorem fuzzyGroups_cons_eq (thr : Frac) (item : RawNewsItem) (rest' : List RawNewsItem)
    (used : List PyStr) (hrest : (rest'.map (fun it => it.id)).Nodup)
    (hu : item.id ∉ used) :
    fuzzyGroups thr (item :: rest') used
      = (item :: rest'.filter (fun o => decide (o.id ∉ (item.id :: used))
            && decide (thr ≤ title_similarity item.title o.title)))
        :: fuzzyGroups thr rest'
          (((rest'.filter (fun o => decide (o.id ∉ (item.id :: used))
              && decide (thr ≤ title_similarity item.title o.title))).map
                (fun it => it.id)).reverse ++ (item.id :: used)) := by
  simp only [fuzzyGroups, if_neg hu]
  rw [collectSimilar_eq thr item rest' (item.id :: used) hrest]

/-- With pairwise-distinct ids, the fuzzy groups partition the not-yet-used
loose items. -/
theorem fuzzyGroups_flatten_perm (thr : Frac) :
    ∀ (rest : List RawNewsItem) (used : List PyStr),
      (rest.map (fun it => it.id)).Nodup →
      (fuzzyGroups thr rest used).flatten.Perm
        (rest.filter (fun x => decide (x.id ∉ used))) := by
  intro rest
  induction rest with
  | nil =>
    intro used _
    simp [fuzzyGroups]
  | cons item rest' ih =>
    intro used h
    have h' : (item.id :: rest'.map (fun it => it.id)).Nodup := by simpa using h
    obtain ⟨hid, hrest⟩ := List.nodup_cons.mp h'
    by_cases hu : item.id ∈ used
    · simp only [fuzzyGroups, if_pos hu]
      rw [List.filter_cons_of_neg (by simp [hu])]
      exact ih used hrest
    · rw [fuzzyGroups_cons_eq thr item rest' used hrest hu]
      have hfilt : rest'.filter (fun o => decide (o.id ∉ (item.id :: used))
            && decide (thr ≤ title_similarity item.title o.title))
          = rest'.filter (fun o => decide (o.id ∉ used)
            && decide (thr ≤ title_similarity item.title o.title)) := by
        apply List.filter_congr
        intro x hx
        have hne : x.id ≠ item.id := fun he =>
          hid (he ▸ List.mem_map_of_mem (fun it => it.id) hx)
        simp [List.mem_cons, hne]
      rw [hfilt]
      rw [List.filter_cons_of_pos (by simp [hu])]
      rw [List.flatten_cons, List.cons_append]
      refine List.Perm.cons item ?_
      have hIH := ih (((rest'.filter (fun o => decide (o.id ∉ used)
          && decide (thr ≤ title_similarity item.title o.title))).map
            (fun it => it.id)).reverse ++ (item.id :: used)) hrest
      have hfilt2 : rest'.filter (fun x => decide (x.id ∉
            (((rest'.filter (fun o => decide (o.id ∉ used)
              && decide (thr ≤ title_similarity item.title o.title))).map
                (fun it => it.id)).reverse ++ (item.id :: used))))
          = rest'.filter (fun x => decide (x.id ∉ used)
            && !decide (thr ≤ title_similarity item.title x.title)) := by
        apply List.filter_congr
        intro x hx
        have hne : x.id ≠ item.id := fun he =>
          hid (he ▸ List.mem_map_of_mem (fun it => it.id) hx)
        have hmemF1 : x.id ∈ (rest'.filter (fun o => decide (o.id ∉ used)
              && decide (thr ≤ title_similarity item.title o.title))).map (fun it => it.id)
            ↔ (x.id ∉ used ∧ thr ≤ title_similarity item.title x.title) := by
          constructor
          · intro hm
            obtain ⟨y, hyF1, hyid⟩ := List.mem_map.mp hm
            have hyR : y ∈ rest' := List.mem_of_mem_filter hyF1
            have hxy : y = x := id_inj_of_nodup hrest hyR hx hyid
            subst hxy
            have hp := (List.mem_filter.mp hyF1).2
            simp at hp
            exact hp
          · intro hc
            refine List.mem_map_of_mem (fun it => it.id) (List.mem_filter.mpr ⟨hx, ?_⟩)
            simp only [Bool.and_eq_true, decide_eq_true_eq]
            exact ⟨hc.1, hc.2⟩
        have hmemUsed : x.id ∈ (((rest'.filter (fun o => decide (o.id ∉ used)
              && decide (thr ≤ title_similarity item.title o.title))).map
                (fun it => it.id)).reverse ++ (item.id :: used))
            ↔ ((x.id ∉ used ∧ thr ≤ title_similarity item.title x.title)
                ∨ x.id = item.id ∨ x.id ∈ used) := by
          rw [List.mem_append, List.mem_reverse, List.mem_cons, hmemF1]
        rw [Bool.eq_iff_iff]
        simp only [Bool.and_eq_true, Bool.not_eq_true', decide_eq_true_eq,
          decide_eq_false_iff_not]
        constructor
        · intro hnm
          constructor
          · intro hc
            exact hnm (hmemUsed.mpr (Or.inr (Or.inr hc)))
          · intro hc
            by_cases h1 : x.id ∈ used
            · exact hnm (hmemUsed.mpr (Or.inr (Or.inr h1)))
            · exact hnm (hmemUsed.mpr (Or.inl ⟨h1, hc⟩))
        · rintro ⟨h1, h2⟩ hc
          rcases hmemUsed.mp hc with ⟨_, hs⟩ | hc | hc
          · exact h2 hs
          · exact hne hc
          · exact h1 hc
      rw [hfilt2] at hIH
      have hsplit := List.filter_append_perm
        (fun x => decide (thr ≤ title_similarity item.title x.title))
        (rest'.filter (fun x => decide (x.id ∉ used)))
      rw [List.filter_filter, List.filter_filter] at hsplit
      have hcomm1 : rest'.filter (fun x => decide (thr ≤ title_similarity item.title x.title)
            && decide (x.id ∉ used))
          = rest'.filter (fun x => decide (x.id ∉ used)
            && decide (thr ≤ title_similarity item.title x.title)) := by
        apply List.filter_congr
        intro x _
        exact Bool.and_comm _ _
      have hcomm2 : rest'.filter (fun x => !decide (thr ≤ title_similarity item.title x.title)
            && decide (x.id ∉ used))
          = rest'.filter (fun x => decide (x.id ∉ used)
            && !decide (thr ≤ title_similarity item.title x.title)) := by
        apply List.filter_congr
        intro x _
        exact Bool.and_comm _ _
      rw [hcomm1, hcomm2] at hsplit
      exact (List.Perm.append_left _ hIH).trans hsplit

/-- Fuzzy groups are never empty. -/
theorem fuzzyGroups_ne_nil (thr : Frac) :
    ∀ (rest : List RawNewsItem) (used : List PyStr),
      ∀ g ∈ fuzzyGroups thr rest used, g ≠ [] := by
  intro rest
  induction rest with
  | nil =>
    intro used g hg
    simp [fuzzyGroups] at hg
  | cons item rest' ih =>
    intro used g hg
    by_cases hu : item.id ∈ used
    · simp only [fuzzyGroups, if_pos hu] at hg
      exact ih used g hg
    · rcases hc : collectSimilar thr item rest' (item.id :: used) with ⟨grp, u'⟩
      simp only [fuzzyGroups, if_neg hu, hc] at hg
      rcases List.mem_cons.mp hg with h | h
      · subst h
        simp
      · exact ih u' g h

/-- URL multi-groups are never empty. -/
theorem splitUrlGroups_groups_ne_nil (bs : List (PyStr × List RawNewsItem)) :
    ∀ g ∈ (splitUrlGroups bs).1, g ≠ [] := by
  induction bs with
  | nil =>
    intro g hg
    simp [splitUrlGroups] at hg
  | cons kv rest ih =>
    intro g hg
    rcases kv with ⟨k, b⟩
    by_cases hb : 1 < b.length
    · simp only [splitUrlGroups, if_pos hb] at hg
      rcases List.mem_cons.mp hg with h | h
      · subst h
        intro hc
        rw [hc] at hb
        simp at hb
      · exact ih g h
    · simp only [splitUrlGroups, if_neg hb] at hg
      exact ih g hg

/-- Every duplicate group is non-empty. -/
theorem group_duplicates_ne_nil (thr : Frac) (items : List RawNewsItem) :
    ∀ g ∈ group_duplicates thr items, g ≠ [] := by
  intro g hg
  have hgd : group_duplicates thr items
      = (splitUrlGroups (groupByUrl items)).1
        ++ fuzzyGroups thr (splitUrlGroups (groupByUrl items)).2 [] := rfl
  rw [hgd] at hg
  rcases List.mem_append.mp hg with h | h
  · exact splitUrlGroups_groups_ne_nil _ g h
  · exact fuzzyGroups_ne_nil thr _ [] g h

/-- With pairwise-distinct ids the duplicate groups partition the input. -/
theorem group_duplicates_flatten_perm (thr : Frac) (items : List RawNewsItem)
    (hids : (items.map (fun it => it.id)).Nodup) :
    (group_duplicates thr items).flatten.Perm items := by
  have hgd : group_duplicates thr items
      = (splitUrlGroups (groupByUrl items)).1
        ++ fuzzyGroups thr (splitUrlGroups (groupByUrl items)).2 [] := rfl
  have h1 := splitUrlGroups_perm (groupByUrl items) (groupByUrl_buckets_ne_nil items)
  have hPerm := h1.trans (groupByUrl_flatten_perm items)
  have hnodupRem : ((splitUrlGroups (groupByUrl items)).2.map (fun it => it.id)).Nodup := by
    have hmapPerm := hPerm.map (fun it => it.id)
    have hnd := (List.Perm.nodup_iff hmapPerm).mpr hids
    rw [List.map_append] at hnd
    exact hnd.of_append_right
  have h3 := fuzzyGroups_flatten_perm thr (splitUrlGroups (groupByUrl items)).2 [] hnodupRem
  have h4 : (splitUrlGroups (groupByUrl items)).2.filter
      (fun x => decide (x.id ∉ ([] : List PyStr)))
      = (splitUrlGroups (groupByUrl items)).2 := by
    apply List.filter_eq_self.mpr
    intro a _
    simp
  rw [h4] at h3
  rw [hgd, List.flatten_append]
  exact (List.Perm.append_left _ h3).trans hPerm

/-- One kept item per group. -/
theorem dedupeGroups_kept_length (sel : List RawNewsItem → Option PyStr) :
    ∀ groups, (dedupeGroups sel groups).1.length = groups.length := by
  intro groups
  induction groups with
  | nil => rfl
  | cons g gs ih =>
    rcases h : dedupeGroups sel gs with ⟨ks, r⟩
    by_cases hg : g.length = 1
    · simp only [dedupeGroups, h, if_pos hg]
      simp only [List.length_cons]
      rw [← ih, h]
    · simp only [dedupeGroups, h, if_neg hg]
      simp only [List.length_cons]
      rw [← ih, h]

/-- The removal count balances the group sizes. -/
theorem dedupeGroups_count (sel : List RawNewsItem → Option PyStr) :
    ∀ groups, (∀ g ∈ groups, g ≠ []) →
      groups.flatten.length = groups.length + (dedupeGroups sel groups).2 := by
  intro groups
  induction groups with
  | nil => simp [dedupeGroups]
  | cons g gs ih =>
    intro hne
    have hgpos : 0 < g.length :=
      List.length_pos.mpr (hne g (List.mem_cons_self _ _))
    have hrec := ih (fun u hu => hne u (List.mem_cons_of_mem _ hu))
    rcases h : dedupeGroups sel gs with ⟨ks, r⟩
    rw [h] at hrec
    by_cases hg : g.length = 1
    · simp only [dedupeGroups, h, if_pos hg]
      simp only [List.flatten_cons, List.length_append, List.length_cons]
      omega
    · simp only [dedupeGroups, h, if_neg hg]
      simp only [List.flatten_cons, List.length_append, List.length_cons]
      omega

/-- `max(group, key=score)` picks a member of the group. -/
theorem fallback_select_mem (group : List RawNewsItem) (h : group ≠ []) :
    fallback_select group ∈ group := by
  rcases group with _ | ⟨g, gs⟩
  · exact absurd rfl h
  · have aux : ∀ (l : List RawNewsItem) (b : RawNewsItem),
        (l.foldl (fun best it =>
          if fbKeyCmp (fbKey it) (fbKey best) = .gt then it else best) b) = b
        ∨ (l.foldl (fun best it =>
          if fbKeyCmp (fbKey it) (fbKey best) = .gt then it else best) b) ∈ l := by
      intro l
      induction l with
      | nil =>
        intro b
        exact Or.inl rfl
      | cons it l' ih =>
        intro b
        by_cases hcm : fbKeyCmp (fbKey it) (fbKey b) = .gt
        · rcases ih it with h' | h'
          · exact Or.inr (by rw [List.foldl_cons, if_pos hcm, h']; exact List.mem_cons_self _ _)
          · exact Or.inr (by rw [List.foldl_cons, if_pos hcm]; exact List.mem_cons_of_mem _ h')
        · rcases ih b with h' | h'
          · exact Or.inl (by rw [List.foldl_cons, if_neg hcm, h'])
          · exact Or.inr (by rw [List.foldl_cons, if_neg hcm]; exact List.mem_cons_of_mem _ h')
    rcases aux gs g with h' | h'
    · rw [show fallback_select (g :: gs)
          = gs.foldl (fun best it =>
            if fbKeyCmp (fbKey it) (fbKey best) = .gt then it else best) g from rfl, h']
      exact List.mem_cons_self _ _
    · exact List.mem_cons_of_mem _ (by
        rw [show fallback_select (g :: gs)
          = gs.foldl (fun best it =>
            if fbKeyCmp (fbKey it) (fbKey best) = .gt then it else best) g from rfl]
        exact h')

/-- The canonical pick is always a member of the group. -/
theorem chooseItem_mem (sel : List RawNewsItem → Option PyStr)
    (group : List RawNewsItem) (h : group ≠ []) : chooseItem sel group ∈ group := by
  rcases hs : sel group with _ | kid
  · simp only [chooseItem, hs]
    exact fallback_select_mem group h
  · rcases hf : group.find? (fun it => it.id == kid) with _ | it
    · simp only [chooseItem, hs, hf]
      exact fallback_select_mem group h
    · simp only [chooseItem, hs, hf]
      exact List.mem_of_find?_eq_some hf

/-- Every kept item comes from one of the groups. -/
theorem dedupeGroups_kept_mem (sel : List RawNewsItem → Option PyStr) :
    ∀ groups, (∀ g ∈ groups, g ≠ []) →
      ∀ k ∈ (dedupeGroups sel groups).1, ∃ g ∈ groups, k ∈ g := by
  intro groups
  induction groups with
  | nil =>
    intro _ k hk
    simp [dedupeGroups] at hk
  | cons g gs ih =>
    intro hne k hk
    have hgne : g ≠ [] := hne g (List.mem_cons_self _ _)
    have hrec := ih (fun u hu => hne u (List.mem_cons_of_mem _ hu))
    rcases h : dedupeGroups sel gs with ⟨ks, r⟩
    rw [h] at hrec
    by_cases hg : g.length = 1
    · simp only [dedupeGroups, h, if_pos hg] at hk
      rcases List.mem_cons.mp hk with h' | h'
      · subst h'
        refine ⟨g, List.mem_cons_self _ _, ?_⟩
        rcases g with _ | ⟨x, t⟩
        · exact absurd rfl hgne
        · exact List.mem_cons_self _ _
      · obtain ⟨g', hg', hkg'⟩ := hrec k h'
        exact ⟨g', List.mem_cons_of_mem _ hg', hkg'⟩
    · simp only [dedupeGroups, h, if_neg hg] at hk
      rcases List.mem_cons.mp hk with h' | h'
      · subst h'
        exact ⟨g, List.mem_cons_self _ _, chooseItem_mem sel g hgne⟩
      · obtain ⟨g', hg', hkg'⟩ := hrec k h'
        exact ⟨g', List.mem_cons_of_mem _ hg', hkg'⟩

/-- Two items sharing an id (but nothing else). -/
def c10X : RawNewsItem := mkRaw "i" "zzz" "s" "rss" "https://a.com/x"

/-- Second item with the same id, a different URL and a dissimilar title. -/
def c10Y : RawNewsItem := mkRaw "i" "qqq" "s" "rss" "https://b.com/y"

/-- C10 (counterexample): when two input items share an id, the second one
silently vanishes from the fuzzy pass (its id is already `used`), so the
stats identity `original = deduped + removed` fails: the stats are
`(2, 1, 0)`. -/
theorem C10_counterexample :
    (dedupe_items (fun _ => none) simThreshold [c10X, c10Y]).2
        = ⟨2, 1, 0⟩
      ∧ ¬ ((dedupe_items (fun _ => none) simThreshold [c10X, c10Y]).2.original
          = (dedupe_items (fun _ => none) simThreshold [c10X, c10Y]).2.deduped
            + (dedupe_items (fun _ => none) simThreshold [c10X, c10Y]).2.removed) := by
  refine ⟨by decide, by decide⟩

/-- C10 (amended): for every input list whose item ids are pairwise distinct
(guaranteed by the content-hash construction of collector ids), the kept list
is a subset of the input with exactly one representative per duplicate group,
and the stats satisfy `original = length input`, `deduped = length kept`, and
`original = deduped + removed` — for every canonical-selection behaviour
(success, failure, or an id outside the group). -/
theorem C10_dedupe_partition_stats (sel : List RawNewsItem → Option PyStr)
    (thr : Frac) (items : List RawNewsItem)
    (hids : (items.map (fun it => it.id)).Nodup) :
    (∀ k ∈ (dedupe_items sel thr items).1, k ∈ items)
      ∧ (dedupe_items sel thr items).1.length = (group_duplicates thr items).length
      ∧ (∀ k ∈ (dedupe_items sel thr items).1, ∃ g ∈ group_duplicates thr items, k ∈ g)
      ∧ (dedupe_items sel thr items).2.original = items.length
      ∧ (dedupe_items sel thr items).2.deduped = (dedupe_items sel thr items).1.length
      ∧ (dedupe_items sel thr items).2.original
          = (dedupe_items sel thr items).2.deduped
            + (dedupe_items sel thr items).2.removed := by
  rcases items with _ | ⟨a, l⟩
  · refine ⟨?_, ?_, ?_, rfl, rfl, rfl⟩
    · intro k hk
      simp [dedupe_items] at hk
    · rfl
    · intro k hk
      simp [dedupe_items] at hk
  · have hne : ((a :: l) : List RawNewsItem).isEmpty = false := rfl
    have hrepr : dedupe_items sel thr (a :: l)
        = ((dedupeGroups sel (group_duplicates thr (a :: l))).1,
            ⟨(a :: l).length, (dedupeGroups sel (group_duplicates thr (a :: l))).1.length,
              (dedupeGroups sel (group_duplicates thr (a :: l))).2⟩) := by
      unfold dedupe_items
      rw [if_neg (by simp [hne])]
    have hgne := group_duplicates_ne_nil thr (a :: l)
    have hperm := group_duplicates_flatten_perm thr (a :: l) hids
    have hmem := dedupeGroups_kept_mem sel (group_duplicates thr (a :: l)) hgne
    have hlen := dedupeGroups_kept_length sel (group_duplicates thr (a :: l))
    have hcount := dedupeGroups_count sel (group_duplicates thr (a :: l)) hgne
    refine ⟨?_, ?_, ?_, ?_, ?_, ?_⟩
    · intro k hk
      rw [hrepr] at hk
      obtain ⟨g, hg, hkg⟩ := hmem k hk
      exact hperm.mem_iff.mp (List.mem_flatten.mpr ⟨g, hg, hkg⟩)
    · rw [hrepr]
      exact hlen
    · intro k hk
      rw [hrepr] at hk
      exact hmem k hk
    · rw [hrepr]
    · rw [hrepr]
    · rw [hrepr]
      have hflatlen : (group_duplicates thr (a :: l)).flatten.length = (a :: l).length :=
        hperm.length_eq
      simp only []
      omega

/-- Distinct-id witness items for the dedupe statements. -/
def c4A : RawNewsItem := mkRaw "wa" "zzz" "s" "rss" "https://a.com/x"

/-- Second distinct-id witness item, dissimilar to the first. -/
def c4B : RawNewsItem := mkRaw "wb" "qqq" "s" "rss" "https://b.com/y"

/-- C10 (witness): the partition/stats statement on two concrete items with
distinct ids. -/
theorem C10_witness :
    (([c4A, c4B].map (fun it => it.id)).Nodup)
      ∧ (dedupe_items (fun _ => none) simThreshold [c4A, c4B]).2.original
          = (dedupe_items (fun _ => none) simThreshold [c4A, c4B]).2.deduped
            + (dedupe_items (fun _ => none) simThreshold [c4A, c4B]).2.removed := by
  refine ⟨by decide, ?_⟩
  exact (C10_dedupe_partition_stats (fun _ => none) simThreshold [c4A, c4B]
    (by decide)).2.2.2.2.2

/-!
Non-idempotence of deduplication and its fixed points (C4).
-/

/-- First counterexample item: shares a URL with the second, and a title with
the third. -/
def c4dA : RawNewsItem := mkRaw "a" "alpha merger news" "long summary text" "rss" "https://dup.com/x"

/-- Second counterexample item: same URL as the first. -/
def c4dB : RawNewsItem := mkRaw "b" "other thing entirely" "s" "rss" "https://dup.com/x"

/-- Third counterexample item: different URL, same title as the first. -/
def c4dC : RawNewsItem := mkRaw "c" "alpha merger news" "s" "rss" "https://other.com/y"

/-- C4 (counterexample): dedup is not idempotent.  The survivor of a URL
group bypasses the fuzzy-title pass, so two title-identical survivors remain
after one run and are merged by a second run; the surviving pair also
violates the claimed pairwise-below-threshold property. -/
theorem C4_counterexample :
    (dedupe_items (fun _ => none) simThreshold [c4dA, c4dB, c4dC]).1 = [c4dA, c4dC]
      ∧ (dedupe_items (fun _ => none) simThreshold [c4dA, c4dC]).1 = [c4dA]
      ∧ (dedupe_items (fun _ => none) simThreshold
            ((dedupe_items (fun _ => none) simThreshold [c4dA, c4dB, c4dC]).1)).1
          ≠ (dedupe_items (fun _ => none) simThreshold [c4dA, c4dB, c4dC]).1
      ∧ simThreshold ≤ title_similarity c4dA.title c4dC.title := by
  refine ⟨by decide, by decide, by decide, by decide⟩

/-- A fresh key is appended as a new singleton bucket. -/
theorem addToGroups_fresh (k : PyStr) (it : RawNewsItem)
    (gs : List (PyStr × List RawNewsItem)) (h : k ∉ gs.map (fun kv => kv.1)) :
    addToGroups k it gs = gs ++ [(k, [it])] := by
  induction gs with
  | nil => rfl
  | cons kv rest ih =>
    rcases kv with ⟨k', g⟩
    have hk : ¬ k' = k := by
      intro he
      exact h (by simp [he])
    simp only [addToGroups, if_neg hk, List.cons_append]
    rw [ih (fun hc => h (List.mem_cons_of_mem _ hc))]

/-- With pairwise-distinct canonical URLs every bucket is a singleton, in
input order. -/
theorem groupByUrl_distinct (items : List RawNewsItem)
    (hurl : items.Pairwise
      (fun x y => canonical_url x.source_url ≠ canonical_url y.source_url)) :
    groupByUrl items = items.map (fun it => (canonical_url it.source_url, [it])) := by
  have aux : ∀ (l : List RawNewsItem) (acc : List (PyStr × List RawNewsItem)),
      l.Pairwise (fun x y => canonical_url x.source_url ≠ canonical_url y.source_url) →
      (∀ it ∈ l, canonical_url it.source_url ∉ acc.map (fun kv => kv.1)) →
      l.foldl (fun a it => addToGroups (canonical_url it.source_url) it a) acc
        = acc ++ l.map (fun it => (canonical_url it.source_url, [it])) := by
    intro l
    induction l with
    | nil =>
      intro acc _ _
      simp
    | cons it rest ih =>
      intro acc hpw hfresh
      obtain ⟨hhead, htail⟩ := List.pairwise_cons.mp hpw
      rw [List.foldl_cons,
        addToGroups_fresh _ it acc (hfresh it (List.mem_cons_self _ _))]
      rw [ih (acc ++ [(canonical_url it.source_url, [it])]) htail ?_]
      · simp [List.append_assoc]
      · intro it' hit'
        rw [List.map_append, List.mem_append]
        rintro (hc | hc)
        · exact hfresh it' (List.mem_cons_of_mem _ hit') hc
        · simp at hc
          exact hhead it' hit' hc.symm
  have := aux items [] hurl (by simp)
  simpa [groupByUrl] using this

/-- Splitting all-singleton buckets leaves no multi-groups and all items
loose, in order. -/
theorem splitUrlGroups_map_singleton (items : List RawNewsItem) :
    splitUrlGroups (items.map (fun it => (canonical_url it.source_url, [it])))
      = ([], items) := by
  induction items with
  | nil => rfl
  | cons it rest ih =>
    simp only [List.map_cons, splitUrlGroups, ih]
    simp [List.headI]

/-- Strict non-order of the embedded fractions. -/
theorem Frac.not_le_of_lt {x y : Frac} (h : x < y) : ¬ y ≤ x :=
  Int.not_le.mpr h

/-- When the seed is similar to no later item, the inner collection returns
nothing and leaves `used` unchanged. -/
theorem collectSimilar_none (thr : Frac) (item : RawNewsItem) :
    ∀ (rest : List RawNewsItem) (used : List PyStr),
      (∀ o ∈ rest, title_similarity item.title o.title < thr) →
      collectSimilar thr item rest used = ([], used) := by
  intro rest
  induction rest with
  | nil =>
    intro used _
    rfl
  | cons o rest' ih =>
    intro used h
    by_cases hu : o.id ∈ used
    · simp only [collectSimilar, if_pos hu]
      exact ih used (fun u hu' => h u (List.mem_cons_of_mem _ hu'))
    · have hns : ¬ thr ≤ title_similarity item.title o.title :=
        Frac.not_le_of_lt (h o (List.mem_cons_self _ _))
      simp only [collectSimilar, if_neg hu, if_neg hns]
      exact ih used (fun u hu' => h u (List.mem_cons_of_mem _ hu'))

/-- With distinct unused ids and pairwise-dissimilar titles, every fuzzy
group is a singleton, in order. -/
theorem fuzzyGroups_singletons (thr : Frac) :
    ∀ (rest : List RawNewsItem) (used : List PyStr),
      (rest.map (fun it => it.id)).Nodup →
      (∀ x ∈ rest, x.id ∉ used) →
      rest.Pairwise (fun x y => title_similarity x.title y.title < thr) →
      fuzzyGroups thr rest used = rest.map (fun it => [it]) := by
  intro rest
  induction rest with
  | nil =>
    intro used _ _ _
    rfl
  | cons item rest' ih =>
    intro used h hused hpw
    have h' : (item.id :: rest'.map (fun it => it.id)).Nodup := by simpa using h
    obtain ⟨hid, hrest⟩ := List.nodup_cons.mp h'
    obtain ⟨hhead, htail⟩ := List.pairwise_cons.mp hpw
    have hu : item.id ∉ used := hused item (List.mem_cons_self _ _)
    have hstep : fuzzyGroups thr (item :: rest') used
        = [item] :: fuzzyGroups thr rest' (item.id :: used) := by
      simp only [fuzzyGroups, if_neg hu]
      rw [collectSimilar_none thr item rest' (item.id :: used) hhead]
    rw [hstep, List.map_cons]
    rw [ih (item.id :: used) hrest ?_ htail]
    intro x hx
    rw [List.mem_cons]
    rintro (hc | hc)
    · exact hid (hc ▸ List.mem_map_of_mem (fun it => it.id) hx)
    · exact hused x (List.mem_cons_of_mem _ hx) hc

/-- Deduping all-singleton groups keeps every item and removes nothing. -/
theorem dedupeGroups_singletons (sel : List RawNewsItem → Option PyStr) :
    ∀ (items : List RawNewsItem),
      dedupeGroups sel (items.map (fun it => [it])) = (items, 0) := by
  intro items
  induction items with
  | nil => rfl
  | cons it rest ih =>
    simp only [List.map_cons, dedupeGroups, ih]
    simp [List.headI]

/-- C4 (amended): dedup is not idempotent in general (see the
counterexample: URL-group survivors skip the fuzzy pass).  What holds: every
list whose items have pairwise-distinct ids, pairwise-distinct canonical URLs
and pairwise title similarity strictly below the threshold is a fixed point
of `dedupe_items` — it is returned unchanged with stats
`(length, length, 0)`, for every canonical-selection behaviour. -/
theorem C4_dedupe_fixed_point (sel : List RawNewsItem → Option PyStr)
    (thr : Frac) (items : List RawNewsItem)
    (hids : (items.map (fun it => it.id)).Nodup)
    (hurls : items.Pairwise
      (fun x y => canonical_url x.source_url ≠ canonical_url y.source_url))
    (hsims : items.Pairwise
      (fun x y => title_similarity x.title y.title < thr)) :
    dedupe_items sel thr items = (items, ⟨items.length, items.length, 0⟩) := by
  have hgroups : group_duplicates thr items = items.map (fun it => [it]) := by
    have hgd : group_duplicates thr items
        = (splitUrlGroups (groupByUrl items)).1
          ++ fuzzyGroups thr (splitUrlGroups (groupByUrl items)).2 [] := rfl
    rw [hgd, groupByUrl_distinct items hurls, splitUrlGroups_map_singleton]
    simp only [List.nil_append]
    exact fuzzyGroups_singletons thr items [] hids (by simp) hsims
  rcases items with _ | ⟨a, l⟩
  · rfl
  · unfold dedupe_items
    rw [if_neg (by simp)]
    simp only [hgroups, dedupeGroups_singletons]

/-- C4 (witness): two concrete items with distinct ids, distinct canonical
URLs and dissimilar titles are a dedupe fixed point. -/
theorem C4_witness :
    (([c4A, c4B].map (fun it => it.id)).Nodup
        ∧ ([c4A, c4B] : List RawNewsItem).Pairwise
            (fun x y => canonical_url x.source_url ≠ canonical_url y.source_url)
        ∧ ([c4A, c4B] : List RawNewsItem).Pairwise
            (fun x y => title_similarity x.title y.title < simThreshold))
      ∧ dedupe_items (fun _ => none) simThreshold [c4A, c4B]
          = ([c4A, c4B], ⟨2, 2, 0⟩) := by
  refine ⟨⟨by decide, by decide, by decide⟩, ?_⟩
  exact C4_dedupe_fixed_point (fun _ => none) simThreshold [c4A, c4B]
    (by decide) (by decide) (by decide)
